import Mathlib

/-!
Verification development for the flipkart-scraper library.

The library's extraction engine (`ProductDetails::fetch` in
`src/product_details/product.rs`, `ProductSearch::search` / `search_doc` in
`src/search/search.rs`) is shallowly embedded here.  HTML documents are
modelled as a tree of element and text nodes; the `scraper` crate's query
operations (descendant selection in document order, text-node iteration,
attribute lookup, sibling and first-child access) are modelled as pure
functions over that tree.  Raw response bodies are separate `String` inputs,
since the Rust code applies substring signatures to the raw body and CSS
queries to the parsed document.  The network boundary is an explicit
collaborator argument, so "no request was issued" is expressible.

Machine integers (`i32` parsing) are modelled as `Int` with the i32 range
check made explicit; `f32` ratings are modelled as exact `Rat` values parsed
from decimal literals (no property below depends on the numeric value of a
rating, only on its presence).  A Rust panic (`Option::unwrap` on `None`) is
modelled as the distinguished outcome `FetchError.panicked`.
-/

namespace Flipkart

/-! ## String primitives

All string operations used by the scraper (`contains`, `starts_with`,
`strip_prefix`, `trim`, `trim_matches`, `split_once`, `rsplit_once`,
`split_inclusive`, `replace`, `parse`) are implemented over `List Char`,
mirroring Rust `str` semantics. -/

/-- The characters of a string. -/
def chars (s : String) : List Char := s.data

/-- Rust `str::starts_with` on character lists: `isPrefixL p l` holds when
`p` is a prefix of `l`. -/
def isPrefixL : List Char → List Char → Bool
  | [], _ => true
  | _ :: _, [] => false
  | a :: as, b :: bs => a = b && isPrefixL as bs

/-- Rust `str::contains` (substring search) on character lists. -/
def containsL (needle : List Char) : List Char → Bool
  | [] => isPrefixL needle []
  | c :: rest => isPrefixL needle (c :: rest) || containsL needle rest

/-- Rust `str::starts_with`. -/
def startsWithStr (s pfx : String) : Bool := isPrefixL (chars pfx) (chars s)

/-- Rust `str::contains`. -/
def containsStr (s sub : String) : Bool := containsL (chars sub) (chars s)

/-- Rust `str::strip_prefix` on character lists: drop `needle` from the
front of the list, or fail. -/
def dropPfxL : List Char → List Char → Option (List Char)
  | [], l => some l
  | _ :: _, [] => none
  | a :: as, b :: bs => if a = b then dropPfxL as bs else none

/-- Rust `str::strip_prefix`. -/
def dropPfx? (s pfx : String) : Option String :=
  (dropPfxL (chars pfx) (chars s)).map String.mk

/-- Rust `str::trim` on character lists (whitespace from both ends). -/
def trimL (l : List Char) : List Char :=
  ((l.dropWhile Char.isWhitespace).reverse.dropWhile Char.isWhitespace).reverse

/-- Rust `str::trim`. -/
def trimStr (s : String) : String := String.mk (trimL (chars s))

/-- Rust `str::trim_matches` with a character-set pattern. -/
def trimMatchesL (pat : List Char) (l : List Char) : List Char :=
  ((l.dropWhile (pat.contains ·)).reverse.dropWhile (pat.contains ·)).reverse

/-- Rust `str::split_once` on character lists: split at the first occurrence
of `needle`, returning the parts before and after it. -/
def splitOnceL (needle : List Char) : List Char → Option (List Char × List Char)
  | [] => (dropPfxL needle []).map fun r => ([], r)
  | c :: rest =>
    match dropPfxL needle (c :: rest) with
    | some after => some ([], after)
    | none => (splitOnceL needle rest).map fun p => (c :: p.1, p.2)

/-- Rust `str::split_once` with a string pattern. -/
def splitOnceStr (s needle : String) : Option (String × String) :=
  (splitOnceL (chars needle) (chars s)).map fun p => (String.mk p.1, String.mk p.2)

/-- Rust `str::rsplit_once` with a character pattern: split at the last
occurrence of `ch`. -/
def rsplitOnceCharL (ch : Char) (l : List Char) : Option (List Char × List Char) :=
  (splitOnceL [ch] l.reverse).map fun p => (p.2.reverse, p.1.reverse)

/-- Rust `str::split_inclusive` with a (nonempty) string pattern, written
with an explicit reversed accumulator and a fuel parameter that makes the
recursion structural (one unit of fuel per consumed character; the wrapper
supplies the input length, which always suffices, so the fuel-exhausted
branch is unreachable).  Each produced chunk ends with the pattern, except
possibly the last; an empty final remainder produces no chunk. -/
def splitInclAux (n0 : Char) (nrest : List Char) :
    Nat → List Char → List Char → List (List Char)
  | _, acc, [] => if acc.isEmpty then [] else [acc.reverse]
  | 0, acc, l => [acc.reverse ++ l]
  | fuel + 1, acc, c :: rest =>
    match dropPfxL (n0 :: nrest) (c :: rest) with
    | some after => (acc.reverse ++ (n0 :: nrest)) :: splitInclAux n0 nrest fuel [] after
    | none => splitInclAux n0 nrest fuel (c :: acc) rest

/-- Rust `str::split_inclusive`. -/
def splitInclStr (s needle : String) : List String :=
  match chars needle with
  | [] => [s]
  | n0 :: nrest =>
    (splitInclAux n0 nrest (chars s).length [] (chars s)).map String.mk

/-- Rust `str::split` with a character pattern (keeps empty pieces,
as Rust does). -/
def splitAllCharL (ch : Char) : List Char → List (List Char)
  | [] => [[]]
  | c :: rest =>
    if c = ch then [] :: splitAllCharL ch rest
    else
      match splitAllCharL ch rest with
      | [] => [[c]]
      | a :: as => (c :: a) :: as

/-- Rust `String::replace(',', "")` as used by the price extractors:
removes every comma. -/
def removeCommas (s : String) : String := String.mk ((chars s).filter (· ≠ ','))

/-- Numeric value of an ASCII digit. -/
def digitVal (c : Char) : Option Nat :=
  if '0' ≤ c ∧ c ≤ '9' then some (c.toNat - '0'.toNat) else none

/-- Value of a nonempty all-digit character list. -/
def parseNatDigits (l : List Char) : Option Nat :=
  if l.isEmpty then none
  else
    l.foldl (fun acc c =>
      match acc, digitVal c with
      | some a, some d => some (a * 10 + d)
      | _, _ => none) (some 0)

/-- Rust `str::parse::<i32>()`: optional sign, ASCII digits only, with the
i32 range check. -/
def parseI32 (s : String) : Option Int :=
  match chars s with
  | '+' :: rest =>
    (parseNatDigits rest).bind fun n =>
      if n ≤ 2147483647 then some (n : Int) else none
  | '-' :: rest =>
    (parseNatDigits rest).bind fun n =>
      if n ≤ 2147483648 then some (-(n : Int)) else none
  | l =>
    (parseNatDigits l).bind fun n =>
      if n ≤ 2147483647 then some (n : Int) else none

/-- Rust `str::parse::<f32>()`, modelled over exact rationals: optional
sign, integer digits, optional fractional digits.  No verified property
depends on the numeric value of a parsed rating, only on whether parsing
succeeded, so scientific notation and special values are not modelled. -/
def parseFloat? (s : String) : Option Rat :=
  let core : List Char → Option Rat := fun l =>
    match splitOnceL ['.'] l with
    | none => (parseNatDigits l).map fun n => (n : Rat)
    | some p =>
      match parseNatDigits p.1, parseNatDigits p.2 with
      | some i, some f => some ((i : Rat) + (f : Rat) / ((10 : Rat) ^ p.2.length))
      | _, _ => none
  match chars s with
  | '-' :: rest => (core rest).map Neg.neg
  | '+' :: rest => core rest
  | l => core l

/-- Concatenation of a list of strings (the `Iterator::collect::<String>()`
applied to a text iterator). -/
def joinStr (l : List String) : String := l.foldl (· ++ ·) ""

/-- The double-quote character (written by code point to keep it out of
character-literal position). -/
def quoteC : Char := Char.ofNat 34

/-! ## Document tree model

An HTML document is a tree of element nodes (tag, attributes, children) and
text nodes, the structure the `scraper` crate exposes.  Document order is
preorder. -/

/-- A parsed HTML node. -/
inductive Node where
  | text (s : String)
  | elem (tag : String) (attrs : List (String × String)) (children : List Node)

/-- Children of a node (text nodes have none). -/
def Node.children : Node → List Node
  | .text _ => []
  | .elem _ _ c => c

/-- The node's content when it is a text node (`Node::as_text`). -/
def Node.asText : Node → Option String
  | .text s => some s
  | .elem _ _ _ => none

/-- Attribute lookup on an element (`Element::attr`). -/
def findAttr (n : Node) (name : String) : Option String :=
  match n with
  | .text _ => none
  | .elem _ attrs _ => (attrs.find? (fun p => p.1 = name)).map Prod.snd

/-- Tag-name selector (`Selector::parse("div")` etc.). -/
def isTag (t : String) (n : Node) : Bool :=
  match n with
  | .text _ => false
  | .elem tg _ _ => tg = t

/-- Id selector (`Selector::parse("#sellerName")`). -/
def hasId (i : String) (n : Node) : Bool := findAttr n "id" == some i

mutual
/-- A node together with all of its descendants, in document (pre)order. -/
def Node.selfDesc : Node → List Node
  | .text s => [.text s]
  | .elem t a c => .elem t a c :: nodesDesc c
/-- All nodes of a forest, each with its descendants, in document order. -/
def nodesDesc : List Node → List Node
  | [] => []
  | n :: ns => n.selfDesc ++ nodesDesc ns
end

/-- `Html::select`: all matching nodes of the document, in document order. -/
def docSelect (p : Node → Bool) (doc : Node) : List Node := doc.selfDesc.filter p

/-- `ElementRef::select`: matching strict descendants, in document order. -/
def selectDesc (p : Node → Bool) (n : Node) : List Node :=
  (nodesDesc n.children).filter p

/-- `ElementRef::text`: the text nodes of the subtree, in document order. -/
def texts (n : Node) : List String := n.selfDesc.filterMap Node.asText

/-- `element.text().next()`: the first text node of the subtree. -/
def firstText (n : Node) : Option String := (texts n).head?

/-- `element.text().collect::<String>()`: all subtree text concatenated. -/
def allText (n : Node) : String := joinStr (texts n)

mutual
/-- Find the first node (in document order) of a forest satisfying `p`,
returning it together with the list of its following siblings — the context
needed to model `NodeRef::next_sibling`. -/
def findWithSibs (p : Node → Bool) : List Node → Option (Node × List Node)
  | [] => none
  | n :: rest =>
    if p n then some (n, rest)
    else
      match findWithSibsIn p n with
      | some r => some r
      | none => findWithSibs p rest
/-- `findWithSibs` descending into one node. -/
def findWithSibsIn (p : Node → Bool) : Node → Option (Node × List Node)
  | .text _ => none
  | .elem _ _ c => findWithSibs p c
end

mutual
/-- All nodes of a forest satisfying `p` (in document order), each paired
with its immediately preceding sibling, if any — the context needed to
model `NodeRef::prev_sibling`. -/
def withPrevInList (p : Node → Bool) (prev : Option Node) :
    List Node → List (Option Node × Node)
  | [] => []
  | n :: rest =>
    (if p n then [(prev, n)] else []) ++ withPrevInNode p n
      ++ withPrevInList p (some n) rest
/-- `withPrevInList` descending into one node. -/
def withPrevInNode (p : Node → Bool) : Node → List (Option Node × Node)
  | .text _ => []
  | .elem _ _ c => withPrevInList p none c
end

/-! ## Data model (`src/lib.rs`, `src/product_details/*.rs`) -/

/-- Information about the seller of a product (`Seller`). -/
structure Seller where
  name : String
  rating : Option Rat
deriving DecidableEq

/-- An offer available on a product (`Offer`). -/
structure Offer where
  category : Option String
  description : String
deriving DecidableEq

/-- A single key/value specification (`Specification`). -/
structure Specification where
  name : String
  value : String
deriving DecidableEq

/-- A group of specifications under one category (`Specifications`). -/
structure Specifications where
  category : String
  specifications : List Specification
deriving DecidableEq

/-- The details of a Flipkart product (`ProductDetails`). -/
structure ProductDetails where
  name : Option String
  in_stock : Bool
  current_price : Option Int
  original_price : Option Int
  product_id : Option String
  share_url : String
  rating : Option Rat
  f_assured : Bool
  highlights : List String
  seller : Option Seller
  thumbnails : List String
  offers : List Offer
  specifications : List Specifications
deriving DecidableEq

/-- `ProductDetails::default()`. -/
def ProductDetails.default : ProductDetails :=
  { name := none, in_stock := false, current_price := none,
    original_price := none, product_id := none, share_url := "",
    rating := none, f_assured := false, highlights := [], seller := none,
    thumbnails := [], offers := [], specifications := [] }

/-- An already-parsed absolute URL, reduced to the two capabilities the
scraper consumes: its rendered string and its host (`Url::domain`, which is
`None` for URLs without a domain-shaped host). -/
structure Url where
  raw : String
  domain : Option String
deriving DecidableEq

/-- Modelled from the spec: URL construction and validation is an external
collaborator ("URL construction and validation beyond domain-allowlist
checking" is out of scope).  `Url::parse` accepts absolute http(s) URLs
with a nonempty host and rejects everything else (in particular relative
references and the empty string); the rendered form of an accepted URL is
the input itself (normalisation is not modelled — no claim depends on it). -/
def hostOf (rest : String) : String :=
  String.mk ((chars rest).takeWhile fun c => ¬ (c = '/' ∨ c = '?' ∨ c = '#'))

/-- Modelled from the spec: acceptance of an absolute URL by the external
URL collaborator (see `hostOf` above for the host part). -/
def Url.parse (s : String) : Option Url :=
  match (dropPfx? s "https://").orElse fun _ => dropPfx? s "http://" with
  | none => none
  | some rest =>
    if hostOf rest = "" then none
    else some { raw := s, domain := some (hostOf rest) }

/-- Failure outcomes of a product fetch.  `transport` stands for the opaque
network-layer errors propagated unchanged from the fetch collaborator;
`panicked` models a Rust panic (the `strip_prefix('₹').unwrap()` in the
price extractor), which is not a returned error in the source but a process
abort — it is kept distinct from every returned error. -/
inductive FetchError where
  | invalidDomain
  | unsupportedDomain
  | linkNotProduct
  | internalServerError
  | transport
  | panicked
deriving DecidableEq

/-- Decidable equality of fetch outcomes, for evaluating the pipeline on
concrete inputs. -/
instance {ε α : Type} [DecidableEq ε] [DecidableEq α] : DecidableEq (Except ε α) :=
  fun x y =>
    match x, y with
    | .ok a, .ok b =>
      if h : a = b then isTrue (h ▸ rfl)
      else isFalse fun he => h (Except.ok.inj he)
    | .error a, .error b =>
      if h : a = b then isTrue (h ▸ rfl)
      else isFalse fun he => h (Except.error.inj he)
    | .ok _, .error _ => isFalse fun he => Except.noConfusion he
    | .error _, .ok _ => isFalse fun he => Except.noConfusion he

/-! ## Field extractors (`ProductDetails::fetch`, product.rs lines 95-273) -/

/-- Leading text of an element:
`element.text().next().unwrap_or_default().trim()`. -/
def leadText (e : Node) : String := trimStr ((firstText e).getD "")

/-- Title extraction (product.rs lines 95-100): first `h1`, else first
`title`, full text. -/
def extractTitle (doc : Node) : Option String :=
  ((docSelect (isTag "h1") doc).head?.orElse fun _ =>
    (docSelect (isTag "title") doc).head?).map allText

/-- Thumbnail extraction (product.rs lines 102-119): walk the `ul` elements
in document order, skip any whose aggregate text is nonempty after
trimming, collect every `img src` under the list items, and stop as soon as
the accumulated collection is nonempty. -/
def thumbLoop : List Node → List String → List String
  | [], acc => acc
  | ul :: rest, acc =>
    if trimStr (allText ul) ≠ "" then thumbLoop rest acc
    else
      let acc := acc ++ (selectDesc (isTag "li") ul).flatMap fun li =>
        (selectDesc (isTag "img") li).filterMap fun img => findAttr img "src"
      if acc.isEmpty then thumbLoop rest acc else acc

/-- Stock flag (product.rs line 122). -/
def inStockOf (body : String) : Bool :=
  !(containsStr body "Coming Soon" || containsStr body "currently out of stock")

/-- Seller extraction (product.rs lines 125-153): first `#sellerName`
element; name from the first nested `span`'s first text node, else the
first nested `div`'s trimmed full text; rating parsed from that `div`'s
trimmed full text, parse failure ignored. -/
def extractSeller (doc : Node) : Option Seller :=
  match (docSelect (hasId "sellerName") doc).head? with
  | none => none
  | some seller_elem =>
    let span_elem := (selectDesc (isTag "span") seller_elem).head?
    let div_elem := (selectDesc (isTag "div") seller_elem).head?
    let name := (span_elem.bind firstText).orElse fun _ =>
      div_elem.map fun e => trimStr (allText e)
    match name with
    | none => none
    | some name =>
      some { name := name,
             rating := div_elem.bind fun e => parseFloat? (trimStr (allText e)) }

/-- Modelled from the spec: the embedded star-icon reference asset
(`include_str!("../star_base64_svg")`, a repository file not present under
`src/`).  The spec describes it only as "a known star-icon signature
(embedded reference asset)" compared verbatim against image `src` values,
so it is modelled as an opaque nonempty constant; no claim depends on its
contents. -/
def star_svg : String := "star-icon-signature"

/-- One offer list item (product.rs lines 171-191): the first nested `span`
is tentatively the category; if its next sibling node is also a `span`
element, that sibling's first child text node is the description and the
category is kept, otherwise the tentative category becomes the description.
Items yielding no description are dropped. -/
def extractOffer (offer : Node) : Option Offer :=
  match findWithSibs (isTag "span") offer.children with
  | none => none
  | some (offer_container, sibs) =>
    match sibs.head? with
    | none => none
    | some sib =>
      match sib with
      | .elem "span" _ c =>
        (c.head?.bind Node.asText).map fun t =>
          { category := some (allText offer_container), description := t }
      | _ => some { category := none, description := allText offer_container }

/-- Specification tables (product.rs lines 195-228): every nested `table`
whose previous sibling has a first child that is a text node contributes a
group named by that text; each table row's first two `td` texts become a
name/value pair, rows with fewer than two cells are skipped. -/
def extractSpecGroups (element : Node) : List Specifications :=
  (withPrevInNode (isTag "table") element).filterMap fun pr =>
    match pr.1 with
    | none => none
    | some prevNode =>
      match prevNode.children.head? with
      | none => none
      | some category =>
        (category.asText).map fun cat =>
          { category := cat,
            specifications := (selectDesc (isTag "tr") pr.2).filterMap fun row =>
              match selectDesc (isTag "td") row with
              | td1 :: td2 :: _ => some { name := allText td1, value := allText td2 }
              | _ => none }

/-- The inner price loop (product.rs lines 258-271): scan the nested `div`
elements; strip the rupee prefix from each one's full text with
`Option::unwrap` (`none` result = panic), skip texts still containing a
second rupee sign, parse the rest with commas removed; the first value
lands in `current_price` (even a failed parse, leaving it unset), the next
attempt sets `original_price` — defaulting to the current price when it
fails to parse — and breaks. -/
def priceLoop (c o : Option Int) : List Node → Option (Option Int × Option Int)
  | [] => some (c, o)
  | elem :: rest =>
    match dropPfx? (allText elem) "₹" with
    | none => none
    | some t' =>
      if containsStr t' "₹" then priceLoop c o rest
      else
        if c.isNone then priceLoop (parseI32 (removeCommas t')) o rest
        else some (c, (parseI32 (removeCommas t')).orElse fun _ => c)

/-- Highlights step of the main div pass (product.rs lines 160-168). -/
def stepHighlights (d : ProductDetails) (e : Node) : ProductDetails :=
  { d with highlights :=
      if d.highlights.isEmpty && startsWithStr (leadText e) "Highlights" then
        match (selectDesc (isTag "ul") e).head? with
        | some ul_elem => d.highlights ++ (selectDesc (isTag "li") ul_elem).map allText
        | none => d.highlights
      else d.highlights }

/-- Offers step of the main div pass (product.rs lines 170-193).  Note: no
`is_empty` guard here — every qualifying container appends. -/
def stepOffers (in_stock : Bool) (d : ProductDetails) (e : Node) : ProductDetails :=
  { d with offers :=
      if in_stock && startsWithStr (leadText e) "Available offers" then
        d.offers ++ (selectDesc (isTag "li") e).filterMap extractOffer
      else d.offers }

/-- Specifications step of the main div pass (product.rs lines 195-228). -/
def stepSpecs (d : ProductDetails) (e : Node) : ProductDetails :=
  { d with specifications :=
      if d.specifications.isEmpty && startsWithStr (leadText e) "Specifications" then
        extractSpecGroups e
      else d.specifications }

/-- Rating step of the main div pass (product.rs lines 235-243): when the
element's first image's `src` equals the star-icon signature, the element's
leading text is parsed as the rating (a failed parse leaves it unset). -/
def stepRating (d : ProductDetails) (e : Node) : ProductDetails :=
  { d with rating :=
      if d.rating.isNone then
        match (selectDesc (isTag "img") e).head? with
        | some img =>
          match findAttr img "src" with
          | some src =>
            if trimStr src = star_svg then parseFloat? (leadText e) else d.rating
          | none => d.rating
        | none => d.rating
      else d.rating }

/-- F-assured step of the main div pass (product.rs lines 245-255): checked
only while no current price is set; any image whose `src` contains the
f-assured icon fragment sets the flag. -/
def stepFA (d : ProductDetails) (e : Node) : ProductDetails :=
  { d with f_assured :=
      if d.current_price.isNone
          && (selectDesc (isTag "img") e).any (fun img =>
              match findAttr img "src" with
              | some s => containsStr s "fa_62673a.png"
              | none => false) then
        true
      else d.f_assured }

/-- Price step of the main div pass (product.rs lines 257-272), gated on
`original_price` still unset and the leading text starting with the rupee
sign; `none` propagates the inner loop's panic. -/
def stepPrice (d : ProductDetails) (e : Node) : Option ProductDetails :=
  if d.original_price.isNone && startsWithStr (leadText e) "₹" then
    (priceLoop d.current_price d.original_price (selectDesc (isTag "div") e)).map
      fun p => { d with current_price := p.1, original_price := p.2 }
  else some d

/-- One iteration of the main div pass (product.rs lines 156-273): the
highlights/offers/specifications rules always run; `Coming Soon` pages
`continue` before the rating, f-assured and price rules. -/
def divStep (in_stock coming_soon : Bool) (d : ProductDetails) (e : Node) :
    Option ProductDetails :=
  if coming_soon then
    some (stepSpecs (stepOffers in_stock (stepHighlights d e) e) e)
  else
    stepPrice
      (stepFA (stepRating (stepSpecs (stepOffers in_stock (stepHighlights d e) e) e) e) e) e

/-- The main div pass over all `div` elements in document order. -/
def processDivs (in_stock coming_soon : Bool) (d : ProductDetails) :
    List Node → Option ProductDetails
  | [] => some d
  | e :: rest =>
    match divStep in_stock coming_soon d e with
    | none => none
    | some d₂ => processDivs in_stock coming_soon d₂ rest

/-! ## Embedded-state extraction (product.rs lines 275-296) -/

/-- The share-link scan over the chunks of
`text.split_inclusive("product.share.pp")`: in each chunk take what follows
the last double quote and try to parse it as an absolute URL; the first
success wins. -/
def chunkLink : List String → Option Url
  | [] => none
  | content :: rest =>
    match rsplitOnceCharL quoteC (chars content) with
    | some p =>
      match Url.parse (String.mk p.2) with
      | some link => some link
      | none => chunkLink rest
    | none => chunkLink rest

/-- The product-id update of the embedded-state loop (product.rs lines
278-282): the text after a `productId` marker, trimmed of quote/colon
punctuation, up to the next quote — assigned (possibly as `none`) whenever
the marker is present. -/
def updateProductId (d : ProductDetails) (text : String) : ProductDetails :=
  match splitOnceStr text "productId" with
  | none => d
  | some p =>
    { d with product_id :=
        ((splitOnceL [quoteC] (trimMatchesL [quoteC, ':'] (trimL (chars p.2)))).map
          (fun q => String.mk q.1)) }

/-- Embedded-state extraction: for each `script` whose text starts with the
`window.__INITIAL_STATE__` marker, run the product-id update and scan for a
share link; the loop stops at the first script that yields a valid link
(`break 'link_identifier`). -/
def extractEmbedded (d : ProductDetails) : List Node → ProductDetails
  | [] => d
  | s :: rest =>
    if startsWithStr (allText s) "window.__INITIAL_STATE__" then
      match chunkLink (splitInclStr (allText s) "product.share.pp") with
      | some link => { updateProductId d (allText s) with share_url := link.raw }
      | none => extractEmbedded (updateProductId d (allText s)) rest
    else extractEmbedded d rest

/-! ## The fetch pipeline (product.rs lines 57-299) -/

/-- Not-found content signature (product.rs line 85). -/
def notFoundSig (body : String) : Bool :=
  containsStr body "has been moved or deleted" || containsStr body "not right!"

/-- Server-error content signature (product.rs line 88). -/
def serverSig (body : String) : Bool := containsStr body "Internal Server Error"

/-- Domain validation (product.rs lines 71-77): the URL must have a domain
and it must contain `flipkart.com`. -/
def checkUrl (url : Url) : Except FetchError Unit :=
  match url.domain with
  | none => .error .invalidDomain
  | some d =>
    if containsStr d "flipkart.com" then .ok () else .error .unsupportedDomain

/-- The extraction state after the title, thumbnail, stock and seller
phases (product.rs lines 93-153), before the main div pass. -/
def preDetails (body : String) (doc : Node) : ProductDetails :=
  let in_stock := inStockOf body
  { ProductDetails.default with
    name := extractTitle doc,
    thumbnails := thumbLoop (docSelect (isTag "ul") doc) [],
    in_stock := in_stock,
    seller := if in_stock then extractSeller doc else none }

/-- The embedded-state phase plus the share-url fallback (product.rs lines
275-296): when no script yields a link the share url falls back to the
originally requested URL. -/
def finishEmbedded (url : Url) (doc : Node) (d : ProductDetails) : ProductDetails :=
  if (extractEmbedded d (docSelect (isTag "script") doc)).share_url = "" then
    { extractEmbedded d (docSelect (isTag "script") doc) with share_url := url.raw }
  else extractEmbedded d (docSelect (isTag "script") doc)

/-- Everything `ProductDetails::fetch` does to a fetched body: content
signature checks, then the extraction phases over the parsed document. -/
def processBody (url : Url) (body : String) (doc : Node) :
    Except FetchError ProductDetails :=
  if notFoundSig body then .error .linkNotProduct
  else if serverSig body then .error .internalServerError
  else
    match processDivs (inStockOf body) (containsStr body "Coming Soon")
        (preDetails body doc) (docSelect (isTag "div") doc) with
    | none => .error .panicked
    | some d => .ok (finishEmbedded url doc d)

/-- `ProductDetails::fetch`, with the network collaborator's answer (raw
body and its parse) supplied as arguments. -/
def ProductDetails.fetch (url : Url) (body : String) (doc : Node) :
    Except FetchError ProductDetails :=
  match checkUrl url with
  | .error e => .error e
  | .ok _ => processBody url body doc

/-- `ProductDetails::fetch` with an explicit network collaborator.  The
boolean records whether the collaborator was consulted, so "fails before
any network access" is expressible; a collaborator failure is the opaque
transport error, surfaced unchanged. -/
def fetchWithNetwork (url : Url)
    (network : Unit → Except FetchError (String × Node)) :
    Bool × Except FetchError ProductDetails :=
  match checkUrl url with
  | .error e => (false, .error e)
  | .ok _ =>
    match network () with
    | .error e => (true, .error e)
    | .ok bd => (true, processBody url bd.1 bd.2)

/-! ## Search (`src/search/search.rs`) -/

/-- A product found in search results (`SearchResult`). -/
structure SearchResult where
  product_name : String
  product_link : String
  thumbnail : String
  current_price : Option Int
  original_price : Option Int
deriving DecidableEq

/-- The result of a product search (`ProductSearch`). -/
structure ProductSearch where
  query : String
  query_url : String
  results : List SearchResult
deriving DecidableEq

/-- ASCII characters kept verbatim by form-url-encoding. -/
def isUrlSafe (c : Char) : Bool :=
  ('0' ≤ c && c ≤ '9') || ('a' ≤ c && c ≤ 'z') || ('A' ≤ c && c ≤ 'Z')
    || c = '*' || c = '-' || c = '.' || c = '_'

/-- Uppercase hexadecimal digit. -/
def hexDig (n : Nat) : Char :=
  if n < 10 then Char.ofNat ('0'.toNat + n) else Char.ofNat ('A'.toNat + n - 10)

/-- UTF-8 encoding of a character, as byte values. -/
def utf8Bytes (c : Char) : List Nat :=
  if c.toNat < 0x80 then [c.toNat]
  else if c.toNat < 0x800 then [0xC0 + c.toNat / 0x40, 0x80 + c.toNat % 0x40]
  else if c.toNat < 0x10000 then
    [0xE0 + c.toNat / 0x1000, 0x80 + (c.toNat / 0x40) % 0x40,
      0x80 + c.toNat % 0x40]
  else
    [0xF0 + c.toNat / 0x40000, 0x80 + (c.toNat / 0x1000) % 0x40,
      0x80 + (c.toNat / 0x40) % 0x40, 0x80 + c.toNat % 0x40]

/-- Form-url-encoding of one character: space becomes `+`, safe characters
stay, everything else is percent-encoded byte by byte. -/
def encodeChar (c : Char) : List Char :=
  if c = ' ' then ['+']
  else if isUrlSafe c then [c]
  else (utf8Bytes c).flatMap fun b => ['%', hexDig (b / 16), hexDig (b % 16)]

/-- Form-url-encoding of a string. -/
def formUrlEncode (s : String) : String :=
  String.mk ((chars s).flatMap encodeChar)

/-- Modelled from the spec: the URL collaborator's
`Url::parse_with_params(base, pairs)` appends each form-url-encoded pair to
the base URL's existing query string (`?` when none, `&` otherwise) and
renders the result. -/
def appendQueryPair (base key value : String) : String :=
  base ++ (if containsStr base "?" then "&" else "?")
    ++ formUrlEncode key ++ "=" ++ formUrlEncode value

/-- The search query URL (search.rs lines 59-62 and 153-156): the free-text
query embedded as the `q` parameter on the fixed search endpoint, which
already carries the fixed `marketplace=FLIPKART` parameter. -/
def searchUrlOf (query : String) : String :=
  appendQueryPair "https://www.flipkart.com/search?marketplace=FLIPKART" "q" query

/-- The query parameters of a rendered URL: everything after the first `?`,
split on `&`, each piece split at its first `=`. -/
def queryParams (u : String) : List (String × String) :=
  match splitOnceL ['?'] (chars u) with
  | none => []
  | some p =>
    (splitAllCharL '&' p.2).map fun piece =>
      match splitOnceL ['='] piece with
      | some kv => (String.mk kv.1, String.mk kv.2)
      | none => (String.mk piece, "")

/-- Relative card links are rewritten to absolute ones (search.rs lines
76-82). -/
def normalizeLink (link : String) : String :=
  if startsWithStr link "/" then "https://flipkart.com" ++ link else link

/-- Whitespace-separated words of a character list (with a reversed
accumulator), used for the `class` attribute. -/
def wordsAux (acc : List Char) : List Char → List String
  | [] => if acc.isEmpty then [] else [String.mk acc.reverse]
  | c :: rest =>
    if c.isWhitespace then
      if acc.isEmpty then wordsAux [] rest
      else String.mk acc.reverse :: wordsAux [] rest
    else wordsAux (c :: acc) rest

/-- `Element::classes`: the whitespace-separated entries of the `class`
attribute. -/
def classesOf (n : Node) : List String :=
  ((findAttr n "class").map fun s => wordsAux [] (chars s)).getD []

/-- A composed class selector (`.c1.c2…`) matches elements carrying all the
classes. -/
def hasAllClasses (cs : List String) (n : Node) : Bool :=
  (match n with | .text _ => false | .elem _ _ _ => true)
    && cs.all fun c => (classesOf n).contains c

/-- The class list of the first link's last child (search.rs line 88):
`link_elem.last_child()?.value().as_element()?.classes()`.  A missing last
child or a text-node last child drops the card. -/
def lastChildClasses (link0 : Node) : Option (List String) :=
  link0.children.getLast?.bind fun lc =>
    match lc with
    | .elem _ _ _ => some (classesOf lc)
    | .text _ => none

/-- Class-selector-based name resolution (search.rs lines 96-106): the
first descendant of the link matching the composed class selector; its
first text node, or — when that text is the `Sponsored` marker — its
second text node. -/
def classNameOf (link0 : Node) (cs : List String) : Option String :=
  match (selectDesc (hasAllClasses cs) link0).head? with
  | none => none
  | some name_elem =>
    match texts name_elem with
    | [] => none
    | t :: rest => if t = "Sponsored" then rest.head? else some t

/-- Name fallbacks (search.rs lines 107-111): the second link's `title`
attribute, then the text of the second link when one was found (the
closure advanced `link_elem`), else the first link's text. -/
def fallbackNameOf (link0 : Node) (restLinks : List Node) : Option String :=
  ((restLinks.head?.bind fun l => findAttr l "title").orElse fun _ =>
    firstText (restLinks.head?.getD link0))

/-- The per-card price loop (search.rs lines 113-132): over the card's
nested `div`s whose first text node starts with the rupee sign, strip the
sign from the full text, skip texts with a second sign, parse with commas
removed; first parse fills `current_price`, the next attempt fills
`original_price` as-is and breaks.  (The `unwrap` here cannot fail: the
collected text begins with the first text node, which the guard already
checked, so the `none` branch is unreachable and skips.) -/
def cardPrices (c o : Option Int) : List Node → Option Int × Option Int
  | [] => (c, o)
  | div :: rest =>
    match firstText div with
    | none => cardPrices c o rest
    | some price_tag0 =>
      if startsWithStr price_tag0 "₹" then
        match dropPfx? (allText div) "₹" with
        | none => cardPrices c o rest
        | some t' =>
          if containsStr t' "₹" then cardPrices c o rest
          else
            let price := removeCommas t'
            if c.isNone then cardPrices (parseI32 price) o rest
            else (c, parseI32 price)
      else cardPrices c o rest

/-- One search-result card (search.rs lines 73-141): requires a first link
with an `href`, an `img` with a `src` inside that link, a class-selector
for the name (the last child must be an element with at least one class —
`Selector::parse` of an empty selector string fails and drops the card)
and a resolvable name; any failure drops the card silently. -/
def searchCard (product : Node) : Option SearchResult :=
  let links := selectDesc (isTag "a") product
  match links.head? with
  | none => none
  | some link0 =>
    match findAttr link0 "href" with
    | none => none
    | some href =>
      let product_link := normalizeLink href
      match (selectDesc (isTag "img") link0).head? with
      | none => none
      | some img0 =>
        match findAttr img0 "src" with
        | none => none
        | some thumbnail =>
          match lastChildClasses link0 with
          | none => none
          | some cs =>
            if cs.isEmpty then none
            else
              match (classNameOf link0 cs).orElse fun _ =>
                  fallbackNameOf link0 links.tail with
              | none => none
              | some name =>
                let p := cardPrices none none (selectDesc (isTag "div") product)
                some { product_name := name, product_link := product_link,
                       thumbnail := thumbnail, current_price := p.1,
                       original_price := p.2 }

/-- The search cards: `div` elements carrying a `data-id` attribute
(search.rs lines 70-72). -/
def searchCards (doc : Node) : List Node :=
  (docSelect (isTag "div") doc).filter fun d => (findAttr d "data-id").isSome

/-- `ProductSearch::search_doc` (search.rs lines 58-149): build the query
URL, then extract a result per card, dropping unusable cards.  (The Rust
`Result` can only fail in `parse_with_params`, which cannot fail on the
fixed, valid base URL, so the operation is modelled total.) -/
def ProductSearch.search_doc (query : String) (body_doc : Node) : ProductSearch :=
  { query := query,
    query_url := searchUrlOf query,
    results := (searchCards body_doc).filterMap searchCard }

/-- `ProductSearch::search` (search.rs lines 152-249) duplicates
`search_doc`'s logic verbatim after fetching the search page itself; the
fetched document is supplied as an argument here. -/
def ProductSearch.search (query : String) (fetched_doc : Node) : ProductSearch :=
  ProductSearch.search_doc query fetched_doc

/-! ## Specification-level characterisations

Clean restatements of what the imperative loops compute, proved equal to
the loops above and used to settle the claims. -/

/-- All offers contributed by every qualifying container of the page, in
document order (what the offers rule of the div pass accumulates on an
in-stock page). -/
def allOffersSpec (doc : Node) : List Offer :=
  (docSelect (isTag "div") doc).flatMap fun e =>
    if startsWithStr (leadText e) "Available offers" then
      (selectDesc (isTag "li") e).filterMap extractOffer
    else []

/-- The share link of one script block: the chunk scan, applied only to
scripts bearing the embedded-state marker. -/
def scriptLink (s : Node) : Option Url :=
  if startsWithStr (allText s) "window.__INITIAL_STATE__" then
    chunkLink (splitInclStr (allText s) "product.share.pp")
  else none

/-- The first script block (in document order) yielding a valid share
link. -/
def scriptsLink : List Node → Option Url
  | [] => none
  | s :: rest =>
    match scriptLink s with
    | some l => some l
    | none => scriptsLink rest

/-- One price attempt of the inner price loop: a panic (rupee prefix
missing from a nested div's text) or a parse result. -/
inductive PriceAtt where
  | halt
  | att (v : Option Int)
deriving DecidableEq

/-- The attempt produced by one nested `div` of a price container (`none`
when the text still contains a second rupee sign and is skipped). -/
def attOf (elem : Node) : Option PriceAtt :=
  match dropPfx? (allText elem) "₹" with
  | none => some .halt
  | some t' =>
    if containsStr t' "₹" then none
    else some (.att (parseI32 (removeCommas t')))

/-- The attempt sequence of one price container. -/
def elemAtts (e : Node) : List PriceAtt :=
  (selectDesc (isTag "div") e).filterMap attOf

/-- The inner price loop as a state machine over attempts. -/
def attRun (c o : Option Int) : List PriceAtt → Option (Option Int × Option Int)
  | [] => some (c, o)
  | .halt :: _ => none
  | .att v :: rest =>
    if c.isNone then attRun v o rest else some (c, v.orElse fun _ => c)

/-- The price scan over the whole div pass: containers are consulted while
no original price is set. -/
def scanPrices (c o : Option Int) : List Node → Option (Option Int × Option Int)
  | [] => some (c, o)
  | e :: rest =>
    if o.isNone && startsWithStr (leadText e) "₹" then
      match attRun c o (elemAtts e) with
      | none => none
      | some p => scanPrices p.1 p.2 rest
    else scanPrices c o rest

/-- The successfully parsed figures of an attempt list. -/
def attFigures (l : List PriceAtt) : List Int :=
  l.filterMap fun a => match a with | .att (some v) => some v | _ => none

/-- The figures a price container shows (empty for non-containers). -/
def elemFigures (e : Node) : List Int :=
  if startsWithStr (leadText e) "₹" then attFigures (elemAtts e) else []

/-- The figure sequence of a div list. -/
def figures (L : List Node) : List Int := (L.map elemFigures).flatten

/-- All rupee figures of the page's price containers, in document order. -/
def pageFigures (doc : Node) : List Int := figures (docSelect (isTag "div") doc)

/-- Whether a figure list is led by its minimum: every later figure is at
least the first one. -/
def figsOrdered : List Int → Bool
  | [] => true
  | f :: rest => rest.all fun v => f ≤ v

/-- Off-domain predicate: the URL has no domain, or its domain does not
contain `flipkart.com`. -/
def offDomain (url : Url) : Bool :=
  match url.domain with
  | none => true
  | some d => !containsStr d "flipkart.com"

/-- The offers accumulated by the div pass over a div list: every
qualifying container contributes, in document order. -/
def offersFound (is : Bool) (L : List Node) : List Offer :=
  L.flatMap fun e =>
    if is && startsWithStr (leadText e) "Available offers" then
      (selectDesc (isTag "li") e).filterMap extractOffer
    else []

/-! ## Concrete inputs

Small concrete pages and URLs used to evaluate the pipeline (for witnesses
and counterexamples).  Each raw body is the obvious serialisation of the
document tree next to it. -/

/-- An on-domain product URL. -/
def okUrl : Url :=
  { raw := "https://www.flipkart.com/p/x", domain := some "www.flipkart.com" }

/-- A page marked "currently out of stock" (but not "Coming Soon") that
still shows a price block of one figure. -/
def oosDoc : Node :=
  .elem "html" []
    [.text "currently out of stock",
     .elem "div" [] [.elem "div" [] [.text "₹100"]]]

/-- Raw body of `oosDoc`. -/
def oosBody : String :=
  "<html>currently out of stock<div><div>₹100</div></div></html>"

/-- The record `oosDoc` extracts to. -/
def oosDetails : ProductDetails :=
  { name := none, in_stock := false, current_price := some 100,
    original_price := none, product_id := none,
    share_url := "https://www.flipkart.com/p/x", rating := none,
    f_assured := false, highlights := [], seller := none, thumbnails := [],
    offers := [], specifications := [] }

/-- A "Coming Soon" page. -/
def csDoc : Node := .elem "html" [] [.text "Coming Soon"]

/-- Raw body of `csDoc`. -/
def csBody : String := "<html>Coming Soon</html>"

/-- A page whose one price container lists a larger figure before a smaller
one. -/
def descDoc : Node :=
  .elem "html" []
    [.elem "div" [] [.elem "div" [] [.text "₹150"], .elem "div" [] [.text "₹100"]]]

/-- Raw body of `descDoc`. -/
def descBody : String := "<html><div><div>₹150</div><div>₹100</div></div></html>"

/-- The record `descDoc` extracts to: `current_price` above
`original_price`. -/
def descDetails : ProductDetails :=
  { name := none, in_stock := true, current_price := some 150,
    original_price := some 100, product_id := none,
    share_url := "https://www.flipkart.com/p/x", rating := none,
    f_assured := false, highlights := [], seller := none, thumbnails := [],
    offers := [], specifications := [] }

/-- A page whose one price container lists its figures in ascending
order. -/
def ascDoc : Node :=
  .elem "html" []
    [.elem "div" [] [.elem "div" [] [.text "₹100"], .elem "div" [] [.text "₹150"]]]

/-- Raw body of `ascDoc`. -/
def ascBody : String := "<html><div><div>₹100</div><div>₹150</div></div></html>"

/-- A price container whose leading text carries the rupee sign while a
nested block's text does not — the shape on which the extractor's
`strip_prefix('₹').unwrap()` panics. -/
def panicDoc : Node :=
  .elem "html" []
    [.elem "div" [] [.text "₹100", .elem "div" [] [.text "abc"]]]

/-- Raw body of `panicDoc`. -/
def panicBody : String := "<html><div>₹100<div>abc</div></div></html>"

/-- A page with no scripts at all (share url must fall back). -/
def plainDoc : Node := .elem "html" [] [.text "hello"]

/-- Raw body of `plainDoc`. -/
def plainBody : String := "<html>hello</html>"

/-- A page with two containers whose leading text starts with
"Available offers", each holding one offer item. -/
def twoOffersDoc : Node :=
  .elem "html" []
    [.elem "div" []
      [.text "Available offers",
       .elem "ul" []
         [.elem "li" []
           [.elem "span" [] [.text "Bank Offer"],
            .elem "span" [] [.text "10% off"]]]],
     .elem "div" []
      [.text "Available offers",
       .elem "ul" []
         [.elem "li" []
           [.elem "span" [] [.text "Partner Offer"],
            .elem "span" [] [.text "20% off"]]]]]

/-- Raw body of `twoOffersDoc`. -/
def twoOffersBody : String :=
  "<html><div>Available offers<ul><li><span>Bank Offer</span><span>10% off</span></li></ul></div><div>Available offers<ul><li><span>Partner Offer</span><span>20% off</span></li></ul></div></html>"

/-- The record `twoOffersDoc` extracts to: both containers contribute an
offer. -/
def twoOffersDetails : ProductDetails :=
  { name := none, in_stock := true, current_price := none,
    original_price := none, product_id := none,
    share_url := "https://www.flipkart.com/p/x", rating := none,
    f_assured := false, highlights := [], seller := none, thumbnails := [],
    offers := [{ category := some "Bank Offer", description := "10% off" },
               { category := some "Partner Offer", description := "20% off" }],
    specifications := [] }

/-- A body bearing the not-found phrase. -/
def notFoundBody : String :=
  "<html>The page you were looking for has been moved or deleted</html>"

/-- An off-domain URL. -/
def amazonUrl : Url :=
  { raw := "https://www.amazon.com/", domain := some "www.amazon.com" }

/-- A trivial network collaborator answering `plainDoc`. -/
def plainNetwork : Unit → Except FetchError (String × Node) :=
  fun _ => .ok (plainBody, plainDoc)

/-- A search card whose name element's first text node is the `Sponsored`
marker. -/
def sponsoredCard : Node :=
  .elem "div" [("data-id", "1")]
    [.elem "a" [("href", "/p1")]
      [.elem "img" [("src", "thumb.png")] [],
       .elem "div" [("class", "nm")] [.text "Sponsored", .text "Cool Phone"]]]

/-- The search result `sponsoredCard` yields. -/
def sponsoredResult : SearchResult :=
  { product_name := "Cool Phone", product_link := "https://flipkart.com/p1",
    thumbnail := "thumb.png", current_price := none, original_price := none }

/-- A search card whose first link has an `href` and a resolvable name but
no image with a `src` inside the link. -/
def noThumbCard : Node :=
  .elem "div" [("data-id", "2")]
    [.elem "a" [("href", "/p2")] [.elem "div" [("class", "nm")] [.text "NoPic"]]]

/-- The record `csDoc` extracts to. -/
def csDetails : ProductDetails :=
  { ProductDetails.default with share_url := "https://www.flipkart.com/p/x" }

/-- The record `ascDoc` extracts to: ascending prices. -/
def ascDetails : ProductDetails :=
  { name := none, in_stock := true, current_price := some 100,
    original_price := some 150, product_id := none,
    share_url := "https://www.flipkart.com/p/x", rating := none,
    f_assured := false, highlights := [], seller := none, thumbnails := [],
    offers := [], specifications := [] }

/-- The record `plainDoc` extracts to. -/
def plainDetails : ProductDetails :=
  { ProductDetails.default with
    in_stock := true,
    share_url := "https://www.flipkart.com/p/x" }

/-- The first link of `sponsoredCard`. -/
def sponsoredLink : Node :=
  .elem "a" [("href", "/p1")]
    [.elem "img" [("src", "thumb.png")] [],
     .elem "div" [("class", "nm")] [.text "Sponsored", .text "Cool Phone"]]

/-- The name element of `sponsoredCard` (first descendant of its link
matching the composed class selector). -/
def sponsoredNameElem : Node :=
  .elem "div" [("class", "nm")] [.text "Sponsored", .text "Cool Phone"]

/-- The first link of `noThumbCard`. -/
def noThumbLink : Node :=
  .elem "a" [("href", "/p2")] [.elem "div" [("class", "nm")] [.text "NoPic"]]

/-! ## Lemmas: step projections

Each rule of the div pass updates exactly one field; these projection
equations make that explicit for the proofs below. -/

section StepProjections

variable (d : ProductDetails) (e : Node) (is : Bool) (t : String)

@[simp] theorem stepHighlights_name : (stepHighlights d e).name = d.name := rfl

@[simp] theorem stepHighlights_in_stock : (stepHighlights d e).in_stock = d.in_stock := rfl

@[simp] theorem stepHighlights_current_price :
    (stepHighlights d e).current_price = d.current_price := rfl

@[simp] theorem stepHighlights_original_price :
    (stepHighlights d e).original_price = d.original_price := rfl

@[simp] theorem stepHighlights_product_id :
    (stepHighlights d e).product_id = d.product_id := rfl

@[simp] theorem stepHighlights_share_url :
    (stepHighlights d e).share_url = d.share_url := rfl

@[simp] theorem stepHighlights_rating : (stepHighlights d e).rating = d.rating := rfl

@[simp] theorem stepHighlights_f_assured :
    (stepHighlights d e).f_assured = d.f_assured := rfl

@[simp] theorem stepHighlights_seller : (stepHighlights d e).seller = d.seller := rfl

@[simp] theorem stepHighlights_thumbnails :
    (stepHighlights d e).thumbnails = d.thumbnails := rfl

@[simp] theorem stepHighlights_offers : (stepHighlights d e).offers = d.offers := rfl

@[simp] theorem stepHighlights_specifications :
    (stepHighlights d e).specifications = d.specifications := rfl

@[simp] theorem stepOffers_name : (stepOffers is d e).name = d.name := rfl

@[simp] theorem stepOffers_in_stock : (stepOffers is d e).in_stock = d.in_stock := rfl

@[simp] theorem stepOffers_current_price :
    (stepOffers is d e).current_price = d.current_price := rfl

@[simp] theorem stepOffers_original_price :
    (stepOffers is d e).original_price = d.original_price := rfl

@[simp] theorem stepOffers_product_id :
    (stepOffers is d e).product_id = d.product_id := rfl

@[simp] theorem stepOffers_share_url : (stepOffers is d e).share_url = d.share_url := rfl

@[simp] theorem stepOffers_rating : (stepOffers is d e).rating = d.rating := rfl

@[simp] theorem stepOffers_f_assured : (stepOffers is d e).f_assured = d.f_assured := rfl

@[simp] theorem stepOffers_seller : (stepOffers is d e).seller = d.seller := rfl

@[simp] theorem stepOffers_thumbnails :
    (stepOffers is d e).thumbnails = d.thumbnails := rfl

@[simp] theorem stepOffers_highlights :
    (stepOffers is d e).highlights = d.highlights := rfl

@[simp] theorem stepOffers_specifications :
    (stepOffers is d e).specifications = d.specifications := rfl

theorem stepOffers_offers :
    (stepOffers is d e).offers =
      if is && startsWithStr (leadText e) "Available offers" then
        d.offers ++ (selectDesc (isTag "li") e).filterMap extractOffer
      else d.offers := rfl

@[simp] theorem stepSpecs_name : (stepSpecs d e).name = d.name := rfl

@[simp] theorem stepSpecs_in_stock : (stepSpecs d e).in_stock = d.in_stock := rfl

@[simp] theorem stepSpecs_current_price :
    (stepSpecs d e).current_price = d.current_price := rfl

@[simp] theorem stepSpecs_original_price :
    (stepSpecs d e).original_price = d.original_price := rfl

@[simp] theorem stepSpecs_product_id : (stepSpecs d e).product_id = d.product_id := rfl

@[simp] theorem stepSpecs_share_url : (stepSpecs d e).share_url = d.share_url := rfl

@[simp] theorem stepSpecs_rating : (stepSpecs d e).rating = d.rating := rfl

@[simp] theorem stepSpecs_f_assured : (stepSpecs d e).f_assured = d.f_assured := rfl

@[simp] theorem stepSpecs_seller : (stepSpecs d e).seller = d.seller := rfl

@[simp] theorem stepSpecs_thumbnails : (stepSpecs d e).thumbnails = d.thumbnails := rfl

@[simp] theorem stepSpecs_highlights : (stepSpecs d e).highlights = d.highlights := rfl

@[simp] theorem stepSpecs_offers : (stepSpecs d e).offers = d.offers := rfl

@[simp] theorem stepRating_name : (stepRating d e).name = d.name := rfl

@[simp] theorem stepRating_in_stock : (stepRating d e).in_stock = d.in_stock := rfl

@[simp] theorem stepRating_current_price :
    (stepRating d e).current_price = d.current_price := rfl

@[simp] theorem stepRating_original_price :
    (stepRating d e).original_price = d.original_price := rfl

@[simp] theorem stepRating_product_id :
    (stepRating d e).product_id = d.product_id := rfl

@[simp] theorem stepRating_share_url : (stepRating d e).share_url = d.share_url := rfl

@[simp] theorem stepRating_f_assured : (stepRating d e).f_assured = d.f_assured := rfl

@[simp] theorem stepRating_seller : (stepRating d e).seller = d.seller := rfl

@[simp] theorem stepRating_thumbnails :
    (stepRating d e).thumbnails = d.thumbnails := rfl

@[simp] theorem stepRating_highlights :
    (stepRating d e).highlights = d.highlights := rfl

@[simp] theorem stepRating_offers : (stepRating d e).offers = d.offers := rfl

@[simp] theorem stepRating_specifications :
    (stepRating d e).specifications = d.specifications := rfl

@[simp] theorem stepFA_name : (stepFA d e).name = d.name := rfl

@[simp] theorem stepFA_in_stock : (stepFA d e).in_stock = d.in_stock := rfl

@[simp] theorem stepFA_current_price :
    (stepFA d e).current_price = d.current_price := rfl

@[simp] theorem stepFA_original_price :
    (stepFA d e).original_price = d.original_price := rfl

@[simp] theorem stepFA_product_id : (stepFA d e).product_id = d.product_id := rfl

@[simp] theorem stepFA_share_url : (stepFA d e).share_url = d.share_url := rfl

@[simp] theorem stepFA_rating : (stepFA d e).rating = d.rating := rfl

@[simp] theorem stepFA_seller : (stepFA d e).seller = d.seller := rfl

@[simp] theorem stepFA_thumbnails : (stepFA d e).thumbnails = d.thumbnails := rfl

@[simp] theorem stepFA_highlights : (stepFA d e).highlights = d.highlights := rfl

@[simp] theorem stepFA_offers : (stepFA d e).offers = d.offers := rfl

@[simp] theorem stepFA_specifications :
    (stepFA d e).specifications = d.specifications := rfl

@[simp] theorem updateProductId_name : (updateProductId d t).name = d.name := by
  unfold updateProductId; split <;> rfl

@[simp] theorem updateProductId_in_stock :
    (updateProductId d t).in_stock = d.in_stock := by
  unfold updateProductId; split <;> rfl

@[simp] theorem updateProductId_current_price :
    (updateProductId d t).current_price = d.current_price := by
  unfold updateProductId; split <;> rfl

@[simp] theorem updateProductId_original_price :
    (updateProductId d t).original_price = d.original_price := by
  unfold updateProductId; split <;> rfl

@[simp] theorem updateProductId_share_url :
    (updateProductId d t).share_url = d.share_url := by
  unfold updateProductId; split <;> rfl

@[simp] theorem updateProductId_rating : (updateProductId d t).rating = d.rating := by
  unfold updateProductId; split <;> rfl

@[simp] theorem updateProductId_f_assured :
    (updateProductId d t).f_assured = d.f_assured := by
  unfold updateProductId; split <;> rfl

@[simp] theorem updateProductId_seller : (updateProductId d t).seller = d.seller := by
  unfold updateProductId; split <;> rfl

@[simp] theorem updateProductId_thumbnails :
    (updateProductId d t).thumbnails = d.thumbnails := by
  unfold updateProductId; split <;> rfl

@[simp] theorem updateProductId_highlights :
    (updateProductId d t).highlights = d.highlights := by
  unfold updateProductId; split <;> rfl

@[simp] theorem updateProductId_offers : (updateProductId d t).offers = d.offers := by
  unfold updateProductId; split <;> rfl

@[simp] theorem updateProductId_specifications :
    (updateProductId d t).specifications = d.specifications := by
  unfold updateProductId; split <;> rfl

end StepProjections

/-! ## Lemmas: the div pass -/

/-- The price step only touches the two price fields. -/
theorem stepPrice_some {d : ProductDetails} {e : Node} {d₂ : ProductDetails}
    (h : stepPrice d e = some d₂) :
    d₂.name = d.name ∧ d₂.in_stock = d.in_stock ∧ d₂.product_id = d.product_id ∧
      d₂.share_url = d.share_url ∧ d₂.rating = d.rating ∧
      d₂.f_assured = d.f_assured ∧ d₂.highlights = d.highlights ∧
      d₂.seller = d.seller ∧ d₂.thumbnails = d.thumbnails ∧
      d₂.offers = d.offers ∧ d₂.specifications = d.specifications := by
  unfold stepPrice at h
  split at h
  · rw [Option.map_eq_some'] at h
    obtain ⟨p, _, he⟩ := h
    subst he
    exact ⟨rfl, rfl, rfl, rfl, rfl, rfl, rfl, rfl, rfl, rfl, rfl⟩
  · cases h
    exact ⟨rfl, rfl, rfl, rfl, rfl, rfl, rfl, rfl, rfl, rfl, rfl⟩

/-- Fields the div pass never writes are preserved by one step. -/
theorem divStep_frame {is cs : Bool} {d : ProductDetails} {e : Node}
    {d₂ : ProductDetails} (h : divStep is cs d e = some d₂) :
    d₂.name = d.name ∧ d₂.in_stock = d.in_stock ∧ d₂.product_id = d.product_id ∧
      d₂.share_url = d.share_url ∧ d₂.seller = d.seller ∧
      d₂.thumbnails = d.thumbnails := by
  unfold divStep at h
  split at h
  · cases h
    refine ⟨?_, ?_, ?_, ?_, ?_, ?_⟩ <;> simp
  · have hp := stepPrice_some h
    simp only [stepFA_name, stepFA_in_stock, stepFA_product_id, stepFA_share_url,
      stepFA_seller, stepFA_thumbnails, stepRating_name, stepRating_in_stock,
      stepRating_product_id, stepRating_share_url, stepRating_seller,
      stepRating_thumbnails, stepSpecs_name, stepSpecs_in_stock,
      stepSpecs_product_id, stepSpecs_share_url, stepSpecs_seller,
      stepSpecs_thumbnails, stepOffers_name, stepOffers_in_stock,
      stepOffers_product_id, stepOffers_share_url, stepOffers_seller,
      stepOffers_thumbnails, stepHighlights_name, stepHighlights_in_stock,
      stepHighlights_product_id, stepHighlights_share_url, stepHighlights_seller,
      stepHighlights_thumbnails] at hp
    exact ⟨hp.1, hp.2.1, hp.2.2.1, hp.2.2.2.1, hp.2.2.2.2.2.2.2.1,
      hp.2.2.2.2.2.2.2.2.1⟩

/-- On a `Coming Soon` page one step never touches rating, prices or the
f-assured flag. -/
theorem divStep_coming {is : Bool} {d : ProductDetails} {e : Node}
    {d₂ : ProductDetails} (h : divStep is true d e = some d₂) :
    d₂.rating = d.rating ∧ d₂.current_price = d.current_price ∧
      d₂.original_price = d.original_price ∧ d₂.f_assured = d.f_assured := by
  unfold divStep at h
  rw [if_pos rfl] at h
  cases h
  refine ⟨?_, ?_, ?_, ?_⟩ <;> simp

/-- Fields the div pass never writes are preserved by the whole pass. -/
theorem processDivs_frame {is cs : Bool} :
    ∀ (L : List Node) (d d₂ : ProductDetails),
      processDivs is cs d L = some d₂ →
      d₂.name = d.name ∧ d₂.in_stock = d.in_stock ∧
        d₂.product_id = d.product_id ∧ d₂.share_url = d.share_url ∧
        d₂.seller = d.seller ∧ d₂.thumbnails = d.thumbnails := by
  intro L
  induction L with
  | nil =>
    intro d d₂ h
    cases h
    exact ⟨rfl, rfl, rfl, rfl, rfl, rfl⟩
  | cons e rest ih =>
    intro d d₂ h
    unfold processDivs at h
    cases hs : divStep is cs d e with
    | none => rw [hs] at h; cases h
    | some d₁ =>
      rw [hs] at h
      have h1 := divStep_frame hs
      have h2 := ih d₁ d₂ h
      exact ⟨h2.1.trans h1.1, h2.2.1.trans h1.2.1, h2.2.2.1.trans h1.2.2.1,
        h2.2.2.2.1.trans h1.2.2.2.1, h2.2.2.2.2.1.trans h1.2.2.2.2.1,
        h2.2.2.2.2.2.trans h1.2.2.2.2.2⟩

/-- On a `Coming Soon` page the whole pass never touches rating, prices or
the f-assured flag. -/
theorem processDivs_coming {is : Bool} :
    ∀ (L : List Node) (d d₂ : ProductDetails),
      processDivs is true d L = some d₂ →
      d₂.rating = d.rating ∧ d₂.current_price = d.current_price ∧
        d₂.original_price = d.original_price ∧ d₂.f_assured = d.f_assured := by
  intro L
  induction L with
  | nil =>
    intro d d₂ h
    cases h
    exact ⟨rfl, rfl, rfl, rfl⟩
  | cons e rest ih =>
    intro d d₂ h
    unfold processDivs at h
    cases hs : divStep is true d e with
    | none => rw [hs] at h; cases h
    | some d₁ =>
      rw [hs] at h
      have h1 := divStep_coming hs
      have h2 := ih d₁ d₂ h
      exact ⟨h2.1.trans h1.1, h2.2.1.trans h1.2.1, h2.2.2.1.trans h1.2.2.1,
        h2.2.2.2.trans h1.2.2.2⟩

/-! ## Lemmas: embedded-state extraction -/

/-- The embedded-state extractor only writes `product_id` and
`share_url`. -/
theorem extractEmbedded_frame :
    ∀ (scripts : List Node) (d : ProductDetails),
      (extractEmbedded d scripts).name = d.name ∧
        (extractEmbedded d scripts).in_stock = d.in_stock ∧
        (extractEmbedded d scripts).current_price = d.current_price ∧
        (extractEmbedded d scripts).original_price = d.original_price ∧
        (extractEmbedded d scripts).rating = d.rating ∧
        (extractEmbedded d scripts).f_assured = d.f_assured ∧
        (extractEmbedded d scripts).highlights = d.highlights ∧
        (extractEmbedded d scripts).seller = d.seller ∧
        (extractEmbedded d scripts).thumbnails = d.thumbnails ∧
        (extractEmbedded d scripts).offers = d.offers ∧
        (extractEmbedded d scripts).specifications = d.specifications := by
  intro scripts
  induction scripts with
  | nil =>
    intro d
    exact ⟨rfl, rfl, rfl, rfl, rfl, rfl, rfl, rfl, rfl, rfl, rfl⟩
  | cons s rest ih =>
    intro d
    unfold extractEmbedded
    split
    · split
      · refine ⟨?_, ?_, ?_, ?_, ?_, ?_, ?_, ?_, ?_, ?_, ?_⟩ <;> simp
      · have hu := ih (updateProductId d (allText s))
        simpa using hu
    · exact ih d

/-- The share url the embedded-state extractor leaves behind is the first
script link when one exists, and the incoming value otherwise. -/
theorem extractEmbedded_share :
    ∀ (scripts : List Node) (d : ProductDetails),
      (extractEmbedded d scripts).share_url =
        (match scriptsLink scripts with
         | some l => l.raw
         | none => d.share_url) := by
  intro scripts
  induction scripts with
  | nil => intro d; rfl
  | cons s rest ih =>
    intro d
    unfold extractEmbedded scriptsLink scriptLink
    by_cases hmark : startsWithStr (allText s) "window.__INITIAL_STATE__" = true
    · rw [if_pos hmark, if_pos hmark]
      cases hcl : chunkLink (splitInclStr (allText s) "product.share.pp") with
      | some link => rfl
      | none => rw [ih]; simp
    · rw [if_neg hmark, if_neg hmark]
      exact ih d

/-! ## Lemmas: the fetch pipeline -/

/-- Destructuring a successful `processBody`. -/
theorem processBody_ok {url : Url} {body : String} {doc : Node}
    {d : ProductDetails} (h : processBody url body doc = .ok d) :
    notFoundSig body = false ∧ serverSig body = false ∧
      ∃ d₅, processDivs (inStockOf body) (containsStr body "Coming Soon")
          (preDetails body doc) (docSelect (isTag "div") doc) = some d₅ ∧
        d = finishEmbedded url doc d₅ := by
  unfold processBody at h
  split at h
  · cases h
  · split at h
    · cases h
    · rename_i h1 h2
      cases hp : processDivs (inStockOf body) (containsStr body "Coming Soon")
          (preDetails body doc) (docSelect (isTag "div") doc) with
      | none => rw [hp] at h; cases h
      | some d₅ =>
        rw [hp] at h
        cases h
        exact ⟨by simpa using h1, by simpa using h2, d₅, rfl, rfl⟩

/-- Destructuring a successful fetch. -/
theorem fetch_ok {url : Url} {body : String} {doc : Node} {d : ProductDetails}
    (h : ProductDetails.fetch url body doc = .ok d) :
    checkUrl url = .ok () ∧ processBody url body doc = .ok d := by
  unfold ProductDetails.fetch at h
  cases hc : checkUrl url with
  | error e => rw [hc] at h; cases h
  | ok u => rw [hc] at h; exact ⟨rfl, h⟩

/-- An accepted URL renders as the nonempty input string. -/
theorem url_parse_raw {s : String} {u : Url} (h : Url.parse s = some u) :
    u.raw = s ∧ u.raw ≠ "" := by
  have hraw : u.raw = s := by
    unfold Url.parse at h
    split at h
    · cases h
    · split at h
      · cases h
      · cases h; rfl
  refine ⟨hraw, ?_⟩
  rw [hraw]
  intro he
  rw [he] at h
  rw [show Url.parse "" = none from by decide] at h
  cases h

/-- A chunk-scan success is an accepted URL, hence renders nonempty. -/
theorem chunkLink_raw_ne :
    ∀ (chunks : List String) (l : Url), chunkLink chunks = some l → l.raw ≠ "" := by
  intro chunks
  induction chunks with
  | nil => intro l h; cases h
  | cons c rest ih =>
    intro l h
    unfold chunkLink at h
    split at h
    · split at h
      · cases h
        rename_i hp
        exact (url_parse_raw hp).2
      · exact ih l h
    · exact ih l h

/-- A script-scan success renders nonempty. -/
theorem scriptsLink_raw_ne :
    ∀ (scripts : List Node) (l : Url), scriptsLink scripts = some l → l.raw ≠ "" := by
  intro scripts
  induction scripts with
  | nil => intro l h; cases h
  | cons s rest ih =>
    intro l h
    unfold scriptsLink scriptLink at h
    split at h
    · rename_i l₀ hl
      revert hl
      split
      · intro hl
        cases h
        exact chunkLink_raw_ne _ _ hl
      · intro hl; cases hl
    · exact ih l h

/-! ## Lemmas: list and figure bookkeeping -/

theorem head?_append_some {α : Type} {l l₂ : List α} {a : α}
    (h : l.head? = some a) : (l ++ l₂).head? = some a := by
  cases l with
  | nil => cases h
  | cons x xs => cases h; rfl

theorem figures_cons (e : Node) (rest : List Node) :
    figures (e :: rest) = elemFigures e ++ figures rest := by
  simp [figures]

theorem mem_figures_cons_right {w : Int} {e : Node} {rest : List Node}
    (h : w ∈ figures rest) : w ∈ figures (e :: rest) := by
  rw [figures_cons]
  exact List.mem_append_right _ h

theorem mem_figures_cons_left {w : Int} {e : Node} {rest : List Node}
    (h : w ∈ elemFigures e) : w ∈ figures (e :: rest) := by
  rw [figures_cons]
  exact List.mem_append_left _ h

/-! ## Lemmas: the price scan -/

theorem attFigures_cons_halt (rest : List PriceAtt) :
    attFigures (.halt :: rest) = attFigures rest := rfl

theorem attFigures_cons_none (rest : List PriceAtt) :
    attFigures (.att none :: rest) = attFigures rest := rfl

theorem attFigures_cons_some (w : Int) (rest : List PriceAtt) :
    attFigures (.att (some w) :: rest) = w :: attFigures rest := rfl

/-- The inner price loop is the attempt state machine run on the element's
attempt sequence. -/
theorem priceLoop_eq_attRun :
    ∀ (L : List Node) (c o : Option Int),
      priceLoop c o L = attRun c o (L.filterMap attOf) := by
  intro L
  induction L with
  | nil => intro c o; rfl
  | cons e rest ih =>
    intro c o
    have hA := List.filterMap_cons attOf e rest
    cases hd : dropPfx? (allText e) "₹" with
    | none =>
      have ha : attOf e = some .halt := by simp [attOf, hd]
      rw [hA, ha]
      simp [priceLoop, hd, attRun]
    | some t' =>
      by_cases hc : containsStr t' "₹" = true
      · have ha : attOf e = none := by simp [attOf, hd, hc]
        rw [hA, ha]
        simp [priceLoop, hd, hc, ih]
      · have ha : attOf e = some (.att (parseI32 (removeCommas t'))) := by
          simp [attOf, hd, hc]
        rw [hA, ha]
        cases c with
        | none => simp [priceLoop, hd, hc, attRun, ih]
        | some cv => simp [priceLoop, hd, hc, attRun]

/-- Outcome of the attempt machine started with a current price already
set: it keeps that price, and the original is absent, defaulted to the
current price, or one of the element's parsed figures. -/
theorem attRun_sc :
    ∀ (A : List PriceAtt) (cv : Int) (res : Option Int × Option Int),
      attRun (some cv) none A = some res →
      res.1 = some cv ∧
        (res.2 = none ∨ res.2 = some cv ∨
          ∃ w, res.2 = some w ∧ w ∈ attFigures A) := by
  intro A
  induction A with
  | nil =>
    intro cv res h
    cases h
    exact ⟨rfl, Or.inl rfl⟩
  | cons a rest ih =>
    intro cv res h
    cases a with
    | halt => simp [attRun] at h
    | att v =>
      unfold attRun at h
      rw [if_neg (by simp)] at h
      cases h
      refine ⟨rfl, ?_⟩
      cases v with
      | none => exact Or.inr (Or.inl rfl)
      | some w =>
        refine Or.inr (Or.inr ⟨w, rfl, ?_⟩)
        rw [attFigures_cons_some]
        exact List.mem_cons_self _ _

/-- Outcome of the attempt machine started empty: an absent current price
means no figure parsed at all; a present one is the element's first figure,
with the original characterised as in `attRun_sc`. -/
theorem attRun_nn :
    ∀ (A : List PriceAtt) (res : Option Int × Option Int),
      attRun none none A = some res →
      (res.1 = none → res.2 = none ∧ attFigures A = []) ∧
      (∀ cv : Int, res.1 = some cv →
        (attFigures A).head? = some cv ∧
          (res.2 = none ∨ res.2 = some cv ∨
            ∃ w, res.2 = some w ∧ w ∈ attFigures A)) := by
  intro A
  induction A with
  | nil =>
    intro res h
    cases h
    exact ⟨fun _ => ⟨rfl, rfl⟩, fun cv hcv => by cases hcv⟩
  | cons a rest ih =>
    intro res h
    cases a with
    | halt => simp [attRun] at h
    | att v =>
      unfold attRun at h
      rw [if_pos (by simp)] at h
      cases v with
      | none =>
        have hr := ih res h
        constructor
        · intro h1
          have hz := hr.1 h1
          rw [attFigures_cons_none]
          exact hz
        · intro cv hcv
          have hs := hr.2 cv hcv
          rw [attFigures_cons_none]
          exact hs
      | some cv0 =>
        have hsc := attRun_sc rest cv0 res h
        constructor
        · intro h1
          rw [hsc.1] at h1
          cases h1
        · intro cv hcv
          rw [hsc.1] at hcv
          have hcveq : cv0 = cv := Option.some.inj hcv
          subst hcveq
          rw [attFigures_cons_some]
          refine ⟨rfl, ?_⟩
          rcases hsc.2 with h2 | h2 | ⟨w, hw, hmem⟩
          · exact Or.inl h2
          · exact Or.inr (Or.inl h2)
          · exact Or.inr (Or.inr ⟨w, hw, List.mem_cons_of_mem _ hmem⟩)

/-- Once an original price is set the scan skips every later container. -/
theorem scanPrices_osome :
    ∀ (L : List Node) (c : Option Int) (ov : Int),
      scanPrices c (some ov) L = some (c, some ov) := by
  intro L
  induction L with
  | nil => intro c ov; rfl
  | cons e rest ih =>
    intro c ov
    unfold scanPrices
    rw [if_neg (by simp)]
    exact ih c ov

/-- Outcome of the scan started with a current price already set. -/
theorem scanPrices_sc :
    ∀ (L : List Node) (cv : Int) (res : Option Int × Option Int),
      scanPrices (some cv) none L = some res →
      res.1 = some cv ∧
        (res.2 = none ∨ res.2 = some cv ∨
          ∃ w, res.2 = some w ∧ w ∈ figures L) := by
  intro L
  induction L with
  | nil =>
    intro cv res h
    cases h
    exact ⟨rfl, Or.inl rfl⟩
  | cons e rest ih =>
    intro cv res h
    unfold scanPrices at h
    by_cases hg : startsWithStr (leadText e) "₹" = true
    · rw [if_pos (by simp [hg])] at h
      cases ha : attRun (some cv) none (elemAtts e) with
      | none => simp [ha] at h
      | some p =>
        simp only [ha] at h
        have hp := attRun_sc (elemAtts e) cv p ha
        rcases hp.2 with h2 | h2 | ⟨w, hw, hmem⟩
        · rw [hp.1, h2] at h
          have hih := ih cv res h
          refine ⟨hih.1, ?_⟩
          rcases hih.2 with h3 | h3 | ⟨w, hw2, hmem2⟩
          · exact Or.inl h3
          · exact Or.inr (Or.inl h3)
          · exact Or.inr (Or.inr ⟨w, hw2, mem_figures_cons_right hmem2⟩)
        · rw [hp.1, h2, scanPrices_osome] at h
          cases h
          exact ⟨rfl, Or.inr (Or.inl rfl)⟩
        · rw [hp.1, hw, scanPrices_osome] at h
          cases h
          refine ⟨rfl, Or.inr (Or.inr ⟨w, rfl, mem_figures_cons_left ?_⟩)⟩
          simpa [elemFigures, hg] using hmem
    · rw [if_neg (by simp [hg])] at h
      have hih := ih cv res h
      refine ⟨hih.1, ?_⟩
      rcases hih.2 with h3 | h3 | ⟨w, hw2, hmem2⟩
      · exact Or.inl h3
      · exact Or.inr (Or.inl h3)
      · exact Or.inr (Or.inr ⟨w, hw2, mem_figures_cons_right hmem2⟩)

/-- Outcome of the scan started empty: a present current price is the first
figure of the whole page, and a present original price is either that same
value or some figure of the page. -/
theorem scanPrices_nn :
    ∀ (L : List Node) (res : Option Int × Option Int),
      scanPrices none none L = some res →
      ∀ cv : Int, res.1 = some cv →
        (figures L).head? = some cv ∧
          (res.2 = none ∨ res.2 = some cv ∨
            ∃ w, res.2 = some w ∧ w ∈ figures L) := by
  intro L
  induction L with
  | nil =>
    intro res h cv hcv
    cases h
    cases hcv
  | cons e rest ih =>
    intro res h cv hcv
    unfold scanPrices at h
    by_cases hg : startsWithStr (leadText e) "₹" = true
    · rw [if_pos (by simp [hg])] at h
      cases ha : attRun none none (elemAtts e) with
      | none => simp [ha] at h
      | some p =>
        simp only [ha] at h
        have hann := attRun_nn (elemAtts e) p ha
        cases hp1 : p.1 with
        | none =>
          have hz := hann.1 hp1
          rw [hp1, hz.1] at h
          have hih := ih res h cv hcv
          have hfe : elemFigures e = [] := by simp [elemFigures, hg, hz.2]
          rw [figures_cons, hfe]
          refine ⟨by simpa using hih.1, ?_⟩
          rcases hih.2 with h3 | h3 | ⟨w, hw, hmem⟩
          · exact Or.inl h3
          · exact Or.inr (Or.inl h3)
          · exact Or.inr (Or.inr ⟨w, hw, by simpa using hmem⟩)
        | some cv0 =>
          have hsc := hann.2 cv0 hp1
          have hfe : elemFigures e = attFigures (elemAtts e) := by
            simp [elemFigures, hg]
          have hhead : (figures (e :: rest)).head? = some cv0 := by
            rw [figures_cons, hfe]
            exact head?_append_some hsc.1
          rcases hsc.2 with h2 | h2 | ⟨w, hw, hmem⟩
          · rw [hp1, h2] at h
            have hr := scanPrices_sc rest cv0 res h
            have hcveq : cv0 = cv := by rw [hr.1] at hcv; exact Option.some.inj hcv
            subst hcveq
            refine ⟨hhead, ?_⟩
            rcases hr.2 with h3 | h3 | ⟨w, hw2, hmem2⟩
            · exact Or.inl h3
            · exact Or.inr (Or.inl h3)
            · exact Or.inr (Or.inr ⟨w, hw2, mem_figures_cons_right hmem2⟩)
          · rw [hp1, h2, scanPrices_osome] at h
            cases h
            have hcveq : cv0 = cv := Option.some.inj hcv
            subst hcveq
            exact ⟨hhead, Or.inr (Or.inl rfl)⟩
          · rw [hp1, hw, scanPrices_osome] at h
            cases h
            have hcveq : cv0 = cv := Option.some.inj hcv
            subst hcveq
            refine ⟨hhead, Or.inr (Or.inr ⟨w, rfl, mem_figures_cons_left ?_⟩)⟩
            rw [hfe]
            exact hmem
    · rw [if_neg (by simp [hg])] at h
      have hih := ih res h cv hcv
      have hfe : elemFigures e = [] := by
        simp only [Bool.not_eq_true] at hg
        simp [elemFigures, hg]
      rw [figures_cons, hfe]
      refine ⟨by simpa using hih.1, ?_⟩
      rcases hih.2 with h3 | h3 | ⟨w, hw, hmem⟩
      · exact Or.inl h3
      · exact Or.inr (Or.inl h3)
      · exact Or.inr (Or.inr ⟨w, hw, by simpa using hmem⟩)

/-! ## Lemmas: the div pass refined to the spec-level scans -/

/-- The price step, characterised on the two price fields. -/
theorem stepPrice_prices {d : ProductDetails} {e : Node} {d₂ : ProductDetails}
    (h : stepPrice d e = some d₂) :
    ((d.original_price.isNone && startsWithStr (leadText e) "₹") = true ∧
      priceLoop d.current_price d.original_price (selectDesc (isTag "div") e) =
        some (d₂.current_price, d₂.original_price)) ∨
    ((d.original_price.isNone && startsWithStr (leadText e) "₹") = false ∧
      d₂.current_price = d.current_price ∧
      d₂.original_price = d.original_price) := by
  unfold stepPrice at h
  split at h
  · rename_i hg
    left
    refine ⟨hg, ?_⟩
    rw [Option.map_eq_some'] at h
    obtain ⟨p, hp, he⟩ := h
    subst he
    simpa using hp
  · rename_i hg
    right
    cases h
    exact ⟨by simpa using hg, rfl, rfl⟩

/-- The price fields computed by the whole pass (on a page that is not
`Coming Soon`) are those of the spec-level price scan. -/
theorem processDivs_prices {is : Bool} :
    ∀ (L : List Node) (d d₂ : ProductDetails),
      processDivs is false d L = some d₂ →
      scanPrices d.current_price d.original_price L =
        some (d₂.current_price, d₂.original_price) := by
  intro L
  induction L with
  | nil =>
    intro d d₂ h
    cases h
    rfl
  | cons e rest ih =>
    intro d d₂ h
    unfold processDivs at h
    cases hs : divStep is false d e with
    | none => rw [hs] at h; cases h
    | some d₁ =>
      rw [hs] at h
      unfold divStep at hs
      rw [if_neg (by decide)] at hs
      have hp := stepPrice_prices hs
      simp only [stepFA_current_price, stepFA_original_price,
        stepRating_current_price, stepRating_original_price,
        stepSpecs_current_price, stepSpecs_original_price,
        stepOffers_current_price, stepOffers_original_price,
        stepHighlights_current_price, stepHighlights_original_price] at hp
      unfold scanPrices
      rcases hp with ⟨hg, hpl⟩ | ⟨hg, hc, ho⟩
      · rw [if_pos (by simpa using hg)]
        have : attRun d.current_price d.original_price (elemAtts e) =
            some (d₁.current_price, d₁.original_price) := by
          rw [show elemAtts e = (selectDesc (isTag "div") e).filterMap attOf from rfl,
            ← priceLoop_eq_attRun]
          exact hpl
        rw [this]
        exact ih d₁ d₂ h
      · rw [if_neg (by simpa using hg)]
        have := ih d₁ d₂ h
        rw [hc, ho] at this
        exact this

/-- The offers appended by one step. -/
theorem divStep_offers {is cs : Bool} {d : ProductDetails} {e : Node}
    {d₁ : ProductDetails} (h : divStep is cs d e = some d₁) :
    d₁.offers = d.offers ++
      (if is && startsWithStr (leadText e) "Available offers" then
        (selectDesc (isTag "li") e).filterMap extractOffer
      else []) := by
  have key : ∀ dd : ProductDetails,
      (stepOffers is dd e).offers = dd.offers ++
        (if is && startsWithStr (leadText e) "Available offers" then
          (selectDesc (isTag "li") e).filterMap extractOffer
        else []) := by
    intro dd
    rw [stepOffers_offers]
    split <;> simp
  unfold divStep at h
  split at h
  · cases h
    simpa using key (stepHighlights d e)
  · have hp := stepPrice_some h
    have := hp.2.2.2.2.2.2.2.2.2.1
    simp only [stepFA_offers, stepRating_offers, stepSpecs_offers] at this
    rw [this]
    simpa using key (stepHighlights d e)

theorem offersFound_cons (is : Bool) (e : Node) (rest : List Node) :
    offersFound is (e :: rest) =
      (if is && startsWithStr (leadText e) "Available offers" then
        (selectDesc (isTag "li") e).filterMap extractOffer
      else []) ++ offersFound is rest := by
  simp [offersFound]

/-- The offers accumulated by the whole pass. -/
theorem processDivs_offers {is cs : Bool} :
    ∀ (L : List Node) (d d₂ : ProductDetails),
      processDivs is cs d L = some d₂ →
      d₂.offers = d.offers ++ offersFound is L := by
  intro L
  induction L with
  | nil =>
    intro d d₂ h
    cases h
    simp [offersFound]
  | cons e rest ih =>
    intro d d₂ h
    unfold processDivs at h
    cases hs : divStep is cs d e with
    | none => rw [hs] at h; cases h
    | some d₁ =>
      rw [hs] at h
      have h1 := divStep_offers hs
      have h2 := ih d₁ d₂ h
      rw [h2, h1, List.append_assoc, offersFound_cons]

/-- With the stock flag down no offers are collected. -/
theorem offersFound_false : ∀ (L : List Node), offersFound false L = [] := by
  intro L
  induction L with
  | nil => rfl
  | cons e rest ih => simp [offersFound] at ih ⊢

/-- With the stock flag up the accumulated offers are exactly the
specification-level offer list. -/
theorem offersFound_true (doc : Node) :
    offersFound true (docSelect (isTag "div") doc) = allOffersSpec doc := by
  unfold offersFound allOffersSpec
  simp

/-! ## Lemmas: projections of the pre-pass state -/

theorem preDetails_seller (body : String) (doc : Node) :
    (preDetails body doc).seller =
      (if inStockOf body then extractSeller doc else none) := rfl

theorem preDetails_in_stock (body : String) (doc : Node) :
    (preDetails body doc).in_stock = inStockOf body := rfl

theorem preDetails_rating (body : String) (doc : Node) :
    (preDetails body doc).rating = none := rfl

theorem preDetails_current_price (body : String) (doc : Node) :
    (preDetails body doc).current_price = none := rfl

theorem preDetails_original_price (body : String) (doc : Node) :
    (preDetails body doc).original_price = none := rfl

theorem preDetails_f_assured (body : String) (doc : Node) :
    (preDetails body doc).f_assured = false := rfl

theorem preDetails_offers (body : String) (doc : Node) :
    (preDetails body doc).offers = [] := rfl

theorem preDetails_share_url (body : String) (doc : Node) :
    (preDetails body doc).share_url = "" := rfl

/-! ## Lemmas: the embedded-state phase inside the pipeline -/

/-- The final share-url phase only writes `product_id` and `share_url`. -/
theorem finishEmbedded_frame (url : Url) (doc : Node) (d : ProductDetails) :
    (finishEmbedded url doc d).name = d.name ∧
      (finishEmbedded url doc d).in_stock = d.in_stock ∧
      (finishEmbedded url doc d).current_price = d.current_price ∧
      (finishEmbedded url doc d).original_price = d.original_price ∧
      (finishEmbedded url doc d).rating = d.rating ∧
      (finishEmbedded url doc d).f_assured = d.f_assured ∧
      (finishEmbedded url doc d).highlights = d.highlights ∧
      (finishEmbedded url doc d).seller = d.seller ∧
      (finishEmbedded url doc d).thumbnails = d.thumbnails ∧
      (finishEmbedded url doc d).offers = d.offers ∧
      (finishEmbedded url doc d).specifications = d.specifications := by
  have he := extractEmbedded_frame (docSelect (isTag "script") doc) d
  unfold finishEmbedded
  split
  · exact he
  · exact he

/-- The share url after the final phase: the first script link when one
exists, the original request URL otherwise (provided the incoming share url
is empty, as it is after the div pass). -/
theorem finishEmbedded_share {url : Url} {doc : Node} {d : ProductDetails}
    (hd : d.share_url = "") :
    (finishEmbedded url doc d).share_url =
      (match scriptsLink (docSelect (isTag "script") doc) with
       | some l => l.raw
       | none => url.raw) := by
  have he := extractEmbedded_share (docSelect (isTag "script") doc) d
  unfold finishEmbedded
  cases hs : scriptsLink (docSelect (isTag "script") doc) with
  | some l =>
    rw [hs] at he
    rw [if_neg (by rw [he]; exact scriptsLink_raw_ne _ _ hs)]
    exact he
  | none =>
    rw [hs] at he
    rw [if_pos (by rw [he]; exact hd)]

/-! ## Claims -/

/-- C1 (counterexample): the claim says every out-of-stock fetch leaves
`seller`, `rating`, `current_price`, `original_price` absent and
`f_assured` false.  On a page whose body says "currently out of stock" (but
not "Coming Soon") with a price block, the fetch succeeds with
`in_stock = false` and `current_price = some 100`: the price/rating/
f-assured skip is gated on the "Coming Soon" marker only. -/
theorem claim_C1_counterexample :
    ProductDetails.fetch okUrl oosBody oosDoc = .ok oosDetails ∧
      oosDetails.in_stock = false ∧ oosDetails.current_price = some 100 := by
  refine ⟨by decide, by decide, by decide⟩

/-- C1 (amended): on every successful fetch, the seller is absent whenever
the product is out of stock, and on "Coming Soon" pages the rating, both
prices and the f-assured flag are additionally absent/false. -/
theorem claim_C1 (url : Url) (body : String) (doc : Node) (d : ProductDetails)
    (h : ProductDetails.fetch url body doc = .ok d) :
    (d.in_stock = false → d.seller = none) ∧
    (containsStr body "Coming Soon" = true →
      d.rating = none ∧ d.current_price = none ∧ d.original_price = none ∧
        d.f_assured = false) := by
  obtain ⟨hc, hpb⟩ := fetch_ok h
  obtain ⟨h1, h2, d₅, hdiv, hde⟩ := processBody_ok hpb
  subst hde
  obtain ⟨ffname, ffin, ffc, ffo, ffr, ffa, ffh, ffsel, ffth, ffof, ffsp⟩ :=
    finishEmbedded_frame url doc d₅
  obtain ⟨frname, frin, frpid, frsh, frsel, frth⟩ := processDivs_frame _ _ _ hdiv
  constructor
  · intro hstock
    have hin : inStockOf body = false := by
      rw [← preDetails_in_stock body doc, ← frin, ← ffin]
      exact hstock
    rw [ffsel, frsel, preDetails_seller, hin]
    simp
  · intro hcs
    rw [hcs] at hdiv
    obtain ⟨cmr, cmc, cmo, cmf⟩ := processDivs_coming _ _ _ hdiv
    refine ⟨?_, ?_, ?_, ?_⟩
    · rw [ffr, cmr, preDetails_rating]
    · rw [ffc, cmc, preDetails_current_price]
    · rw [ffo, cmo, preDetails_original_price]
    · rw [ffa, cmf, preDetails_f_assured]

/-- C1 (witness): the amended claim evaluated on the "Coming Soon" page. -/
theorem claim_C1_witness :
    (csDetails.in_stock = false → csDetails.seller = none) ∧
    (containsStr csBody "Coming Soon" = true →
      csDetails.rating = none ∧ csDetails.current_price = none ∧
        csDetails.original_price = none ∧ csDetails.f_assured = false) :=
  claim_C1 okUrl csBody csDoc csDetails (by decide)

/-- C2 (counterexample): the claim says `current_price ≤ original_price`
whenever both are present.  On a page listing "₹150" before "₹100" the
fetch succeeds with `current_price = some 150 > original_price = some 100`:
the extractor binds figures positionally with no ordering check. -/
theorem claim_C2_counterexample :
    ProductDetails.fetch okUrl descBody descDoc = .ok descDetails ∧
      descDetails.current_price = some 150 ∧
      descDetails.original_price = some 100 ∧ ¬ ((150 : Int) ≤ 100) := by
  refine ⟨by decide, by decide, by decide, by decide⟩

/-- C2 (amended): on every successful fetch of a page whose rupee figures
are led by their minimum (every figure of every price container is at least
the first figure, as on a page listing the discounted price before the
original one), `current_price ≤ original_price` whenever both are
present. -/
theorem claim_C2 (url : Url) (body : String) (doc : Node) (d : ProductDetails)
    (c o : Int) (h : ProductDetails.fetch url body doc = .ok d)
    (hcur : d.current_price = some c) (horig : d.original_price = some o)
    (hord : figsOrdered (pageFigures doc) = true) : c ≤ o := by
  obtain ⟨hcu, hpb⟩ := fetch_ok h
  obtain ⟨h1, h2, d₅, hdiv, hde⟩ := processBody_ok hpb
  subst hde
  obtain ⟨ffname, ffin, ffc, ffo, ffr, ffa, ffh, ffsel, ffth, ffof, ffsp⟩ :=
    finishEmbedded_frame url doc d₅
  have hc5 : d₅.current_price = some c := by rw [← ffc]; exact hcur
  have ho5 : d₅.original_price = some o := by rw [← ffo]; exact horig
  by_cases hcs : containsStr body "Coming Soon" = true
  · rw [hcs] at hdiv
    obtain ⟨_, cmc, _, _⟩ := processDivs_coming _ _ _ hdiv
    rw [cmc, preDetails_current_price] at hc5
    cases hc5
  · have hcs2 : containsStr body "Coming Soon" = false := by simpa using hcs
    rw [hcs2] at hdiv
    have hscan := processDivs_prices _ _ _ hdiv
    rw [preDetails_current_price, preDetails_original_price] at hscan
    obtain ⟨hhead, hcases⟩ := scanPrices_nn _ _ hscan c hc5
    obtain ⟨tail, hf⟩ : ∃ tail,
        figures (docSelect (isTag "div") doc) = c :: tail := by
      cases hft : figures (docSelect (isTag "div") doc) with
      | nil => rw [hft] at hhead; cases hhead
      | cons a tl =>
        rw [hft] at hhead
        cases hhead
        exact ⟨tl, rfl⟩
    have hall : ∀ v ∈ c :: tail, c ≤ v := by
      have hot : figsOrdered (c :: tail) = true := by rw [← hf]; exact hord
      intro v hv
      rcases List.mem_cons.mp hv with hv | hv
      · exact le_of_eq hv.symm
      · have := List.all_eq_true.mp hot v hv
        exact of_decide_eq_true this
    rcases hcases with h3 | h3 | ⟨w, hw, hmem⟩
    · rw [ho5] at h3
      cases h3
    · rw [ho5] at h3
      cases h3
      exact le_rfl
    · rw [ho5] at hw
      cases hw
      rw [hf] at hmem
      exact hall _ hmem

/-- C2 (witness): the amended claim evaluated on the ascending-price
page. -/
theorem claim_C2_witness :
    ProductDetails.fetch okUrl ascBody ascDoc = .ok ascDetails ∧
      (100 : Int) ≤ 150 :=
  ⟨by decide,
    claim_C2 okUrl ascBody ascDoc ascDetails 100 150 (by decide) (by decide)
      (by decide) (by decide)⟩

/-- C3: the field-extraction phase is not total — on a fetched body that
passes the URL-domain and content-signature checks, a price container whose
leading text carries the rupee sign but which holds a nested block whose
text does not panics in `strip_prefix('₹').unwrap()` instead of treating
the shape as a miss.  The fetch on that page evaluates to the panic
outcome. -/
theorem claim_C3 :
    ProductDetails.fetch okUrl panicBody panicDoc = .error .panicked := by
  decide

/-- C4: on every successful fetch the share url is nonempty, and it is
exactly the first script link — the first script block whose text starts
with the embedded-state marker and whose chunk scan (after the
`product.share.pp` marker) parses into a valid absolute URL, the scan
stopping at that first success — with the originally requested URL as the
fallback when no script yields a link. -/
theorem claim_C4 (url : Url) (body : String) (doc : Node) (d : ProductDetails)
    (hraw : url.raw ≠ "") (h : ProductDetails.fetch url body doc = .ok d) :
    d.share_url ≠ "" ∧
      d.share_url =
        (match scriptsLink (docSelect (isTag "script") doc) with
         | some l => l.raw
         | none => url.raw) := by
  obtain ⟨hcu, hpb⟩ := fetch_ok h
  obtain ⟨h1, h2, d₅, hdiv, hde⟩ := processBody_ok hpb
  subst hde
  have hsh : d₅.share_url = "" := by
    rw [(processDivs_frame _ _ _ hdiv).2.2.2.1, preDetails_share_url]
  have hfe := @finishEmbedded_share url doc d₅ hsh
  refine ⟨?_, hfe⟩
  rw [hfe]
  cases hs : scriptsLink (docSelect (isTag "script") doc) with
  | some l => exact scriptsLink_raw_ne _ _ hs
  | none => exact hraw

/-- C4 (witness): evaluated on the scriptless page, where the share url is
the fallback. -/
theorem claim_C4_witness :
    plainDetails.share_url ≠ "" ∧
      plainDetails.share_url =
        (match scriptsLink (docSelect (isTag "script") plainDoc) with
         | some l => l.raw
         | none => okUrl.raw) :=
  claim_C4 okUrl plainBody plainDoc plainDetails (by decide) (by decide)

/-- An off-domain URL makes the domain check fail with one of the two
input-validation errors. -/
theorem checkUrl_error_of_offDomain {url : Url} (h : offDomain url = true) :
    checkUrl url = .error .invalidDomain ∨
      checkUrl url = .error .unsupportedDomain := by
  unfold offDomain at h
  unfold checkUrl
  cases hd : url.domain with
  | none =>
    left
    rfl
  | some dm =>
    right
    simp only [hd] at h
    have hcf : containsStr dm "flipkart.com" = false := by simpa using h
    simp [hcf]

/-- C5: for every URL without a domain or whose domain does not contain
`flipkart.com`, the fetch fails before the network collaborator is
consulted: the collaborator-called flag is false and the outcome is an
error, whatever the collaborator would have answered. -/
theorem claim_C5 (url : Url)
    (network : Unit → Except FetchError (String × Node))
    (h : offDomain url = true) :
    (fetchWithNetwork url network).1 = false ∧
      ∃ e, (fetchWithNetwork url network).2 = .error e := by
  rcases checkUrl_error_of_offDomain h with hc | hc <;>
    · unfold fetchWithNetwork
      rw [hc]
      exact ⟨rfl, _, rfl⟩

/-- C5 (witness): evaluated on an off-domain URL with a live collaborator. -/
theorem claim_C5_witness : (fetchWithNetwork amazonUrl plainNetwork).1 = false :=
  (claim_C5 amazonUrl plainNetwork (by decide)).1

/-- C6: a body carrying the not-found phrase (or the server-error phrase)
fails with the corresponding content-signature error — never the opaque
transport error — and no extraction result is produced.  A body carrying
the not-found phrase gets the not-found error; one carrying only the
server-error phrase gets the server error. -/
theorem claim_C6 (url : Url) (body : String) (doc : Node)
    (hu : checkUrl url = .ok ())
    (hsig : notFoundSig body = true ∨ serverSig body = true) :
    (∃ e, ProductDetails.fetch url body doc = .error e ∧ e ≠ .transport ∧
      (e = .linkNotProduct ∨ e = .internalServerError)) ∧
    (notFoundSig body = true →
      ProductDetails.fetch url body doc = .error .linkNotProduct) ∧
    (notFoundSig body = false →
      ProductDetails.fetch url body doc = .error .internalServerError) := by
  have hfe : ProductDetails.fetch url body doc = processBody url body doc := by
    unfold ProductDetails.fetch
    rw [hu]
  by_cases hnf : notFoundSig body = true
  · have hpe : processBody url body doc = .error .linkNotProduct := by
      unfold processBody
      rw [if_pos hnf]
    exact ⟨⟨.linkNotProduct, by rw [hfe, hpe], by decide, Or.inl rfl⟩,
      fun _ => by rw [hfe, hpe],
      fun hff => by rw [hff] at hnf; cases hnf⟩
  · have hsv : serverSig body = true := by
      rcases hsig with hh | hh
      · exact absurd hh hnf
      · exact hh
    have hpe : processBody url body doc = .error .internalServerError := by
      unfold processBody
      rw [if_neg hnf, if_pos hsv]
    exact ⟨⟨.internalServerError, by rw [hfe, hpe], by decide, Or.inr rfl⟩,
      fun hh => absurd hh hnf,
      fun _ => by rw [hfe, hpe]⟩

/-- C6 (witness): a not-found body fails with the not-found error. -/
theorem claim_C6_witness :
    ProductDetails.fetch okUrl notFoundBody plainDoc = .error .linkNotProduct :=
  (claim_C6 okUrl notFoundBody plainDoc (by decide) (Or.inl (by decide))).2.1
    (by decide)

/-- C7 (counterexample): the claim says only the first "Available offers"
container contributes offers.  On a page with two such containers the fetch
collects both containers' offers — the offers rule, unlike highlights and
specifications, has no emptiness guard. -/
theorem claim_C7_counterexample :
    ProductDetails.fetch okUrl twoOffersBody twoOffersDoc =
        .ok twoOffersDetails ∧
      twoOffersDetails.offers =
        [{ category := some "Bank Offer", description := "10% off" },
         { category := some "Partner Offer", description := "20% off" }] := by
  refine ⟨by decide, by decide⟩

/-- C7 (amended): on every successful fetch of an in-stock page the offers
are those of every container (in document order) whose leading text starts
with "Available offers"; on out-of-stock pages the offers list is empty. -/
theorem claim_C7 (url : Url) (body : String) (doc : Node) (d : ProductDetails)
    (h : ProductDetails.fetch url body doc = .ok d) :
    d.offers = (if inStockOf body then allOffersSpec doc else []) := by
  obtain ⟨hcu, hpb⟩ := fetch_ok h
  obtain ⟨h1, h2, d₅, hdiv, hde⟩ := processBody_ok hpb
  subst hde
  rw [(finishEmbedded_frame url doc d₅).2.2.2.2.2.2.2.2.2.1]
  have hoff := processDivs_offers _ _ _ hdiv
  rw [preDetails_offers] at hoff
  rw [hoff, List.nil_append]
  cases his : inStockOf body with
  | true => simp [offersFound_true]
  | false => simp [offersFound_false]

/-- C7 (witness): the amended claim evaluated on the two-container page. -/
theorem claim_C7_witness :
    twoOffersDetails.offers =
      (if inStockOf twoOffersBody then allOffersSpec twoOffersDoc else []) :=
  claim_C7 okUrl twoOffersBody twoOffersDoc twoOffersDetails (by decide)

/-! ## Lemmas: the search query URL -/

/-- Hex digits (for inputs below 16) are never a query metacharacter. -/
theorem hexDig_safe (n : Nat) (h : n < 16) :
    hexDig n ≠ '&' ∧ hexDig n ≠ '=' ∧ hexDig n ≠ '?' := by
  interval_cases n <;> refine ⟨by decide, by decide, by decide⟩

/-- UTF-8 bytes are bytes. -/
theorem utf8Bytes_lt (c : Char) : ∀ b ∈ utf8Bytes c, b < 256 := by
  intro b hb
  have hval : c.val.toNat < 55296 ∨
      (57344 ≤ c.val.toNat ∧ c.val.toNat < 1114112) := c.valid
  have hc : c.toNat < 1114112 := by
    show c.val.toNat < 1114112
    omega
  unfold utf8Bytes at hb
  split at hb
  · simp at hb
    omega
  · split at hb
    · simp at hb
      rcases hb with hb | hb <;> omega
    · split at hb
      · simp at hb
        rcases hb with hb | hb | hb <;> omega
      · simp at hb
        rcases hb with hb | hb | hb | hb <;> omega

/-- No character emitted by the form-url-encoder is a query
metacharacter. -/
theorem encodeChar_safe (c : Char) :
    ∀ x ∈ encodeChar c, x ≠ '&' ∧ x ≠ '=' ∧ x ≠ '?' := by
  intro x hx
  unfold encodeChar at hx
  split at hx
  · simp at hx
    subst hx
    refine ⟨by decide, by decide, by decide⟩
  · split at hx
    · rename_i hsafe
      simp at hx
      subst hx
      refine ⟨?_, ?_, ?_⟩ <;> intro he <;> rw [he] at hsafe <;>
        exact absurd hsafe (by decide)
    · simp only [List.mem_flatMap] at hx
      obtain ⟨b, hb, hxx⟩ := hx
      have hblt := utf8Bytes_lt c b hb
      simp at hxx
      rcases hxx with hh | hh | hh
      · subst hh
        refine ⟨by decide, by decide, by decide⟩
      · subst hh
        exact hexDig_safe _ (by omega)
      · subst hh
        exact hexDig_safe _ (by omega)

/-- No character of a form-url-encoded string is a query metacharacter. -/
theorem formUrlEncode_safe (s : String) :
    ∀ x ∈ chars (formUrlEncode s), x ≠ '&' ∧ x ≠ '=' ∧ x ≠ '?' := by
  intro x hx
  have hx2 : x ∈ (chars s).flatMap encodeChar := hx
  rw [List.mem_flatMap] at hx2
  obtain ⟨c, _, hxc⟩ := hx2
  exact encodeChar_safe c x hxc

/-- `split_once` at the unique position of a character. -/
theorem splitOnceL_char (ch : Char) :
    ∀ (pre suf : List Char), ch ∉ pre →
      splitOnceL [ch] (pre ++ ch :: suf) = some (pre, suf) := by
  intro pre
  induction pre with
  | nil =>
    intro suf h
    simp [splitOnceL, dropPfxL]
  | cons a as ih =>
    intro suf h
    have hne : ¬ (ch = a) := by
      intro he
      exact h (by rw [he]; exact List.mem_cons_self _ _)
    have hnm : ch ∉ as := fun hm => h (List.mem_cons_of_mem _ hm)
    show splitOnceL [ch] (a :: (as ++ ch :: suf)) = some (a :: as, suf)
    simp only [splitOnceL, dropPfxL, if_neg hne]
    rw [ih suf hnm]
    rfl

/-- `split` of a separator-free list. -/
theorem splitAllCharL_no (ch : Char) :
    ∀ (l : List Char), ch ∉ l → splitAllCharL ch l = [l] := by
  intro l
  induction l with
  | nil => intro _; rfl
  | cons a as ih =>
    intro h
    have hne : ¬ (a = ch) := by
      intro he
      exact h (by rw [← he]; exact List.mem_cons_self _ _)
    have hnm : ch ∉ as := fun hm => h (List.mem_cons_of_mem _ hm)
    simp only [splitAllCharL, if_neg hne, ih hnm]

/-- `split` at the unique position of the separator. -/
theorem splitAllCharL_mid (ch : Char) :
    ∀ (a b : List Char), ch ∉ a → ch ∉ b →
      splitAllCharL ch (a ++ ch :: b) = [a, b] := by
  intro a
  induction a with
  | nil =>
    intro b _ hb
    simp only [List.nil_append, splitAllCharL, if_pos rfl, splitAllCharL_no ch b hb]
    rfl
  | cons x xs ih =>
    intro b ha hb
    have hne : ¬ (x = ch) := by
      intro he
      exact ha (by rw [← he]; exact List.mem_cons_self _ _)
    have hnm : ch ∉ xs := fun hm => ha (List.mem_cons_of_mem _ hm)
    show splitAllCharL ch (x :: (xs ++ ch :: b)) = [x :: xs, b]
    simp only [splitAllCharL, if_neg hne]
    rw [ih b hnm hb]

/-- String data distributes over append. -/
theorem chars_append (a b : String) : chars (a ++ b) = chars a ++ chars b := rfl

/-- The characters of the search query URL, split into its anatomical
parts. -/
theorem searchUrlOf_chars (q : String) :
    chars (searchUrlOf q) =
      chars "https://www.flipkart.com/search" ++ '?' ::
        (chars "marketplace=FLIPKART" ++ '&' ::
          ('q' :: '=' :: chars (formUrlEncode q))) := by
  have h1 : searchUrlOf q =
      "https://www.flipkart.com/search?marketplace=FLIPKART" ++ "&"
        ++ formUrlEncode "q" ++ "=" ++ formUrlEncode q := by
    unfold searchUrlOf appendQueryPair
    rw [if_pos (by decide)]
  rw [h1]
  simp only [chars_append]
  rw [show chars "https://www.flipkart.com/search?marketplace=FLIPKART" =
      chars "https://www.flipkart.com/search" ++ '?' ::
        chars "marketplace=FLIPKART" from by decide,
    show chars "&" = ['&'] from by decide,
    show chars (formUrlEncode "q") = ['q'] from by decide,
    show chars "=" = ['='] from by decide]
  simp [List.append_assoc]

/-- The query parameters of the search URL: the fixed marketplace parameter
followed by the encoded free-text query. -/
theorem queryParams_searchUrlOf (q : String) :
    queryParams (searchUrlOf q) =
      [("marketplace", "FLIPKART"), ("q", formUrlEncode q)] := by
  have hnopre : '?' ∉ chars "https://www.flipkart.com/search" := by decide
  have hsp := splitOnceL_char '?' (chars "https://www.flipkart.com/search")
    (chars "marketplace=FLIPKART" ++ '&' :: ('q' :: '=' :: chars (formUrlEncode q)))
    hnopre
  unfold queryParams
  rw [searchUrlOf_chars]
  simp only [hsp]
  have hmid : '&' ∉ chars "marketplace=FLIPKART" := by decide
  have hqe : '&' ∉ 'q' :: '=' :: chars (formUrlEncode q) := by
    intro hm
    rcases List.mem_cons.mp hm with hm | hm
    · cases hm
    · rcases List.mem_cons.mp hm with hm | hm
      · cases hm
      · exact (formUrlEncode_safe q _ hm).1 rfl
  rw [splitAllCharL_mid '&' _ _ hmid hqe]
  have hq : splitOnceL ['='] ('q' :: '=' :: chars (formUrlEncode q)) =
      some (['q'], chars (formUrlEncode q)) := by
    have := splitOnceL_char '=' ['q'] (chars (formUrlEncode q)) (by decide)
    simpa using this
  simp only [List.map_cons, List.map_nil, hq,
    show splitOnceL ['='] (chars "marketplace=FLIPKART") =
      some (chars "marketplace", chars "FLIPKART") from by decide]
  rfl

/-- C8 (counterexample): the claim says the query URL carries the free-text
query as its only parameter.  For the query `"x"` the constructed URL's
parameter list also carries the fixed `marketplace=FLIPKART` parameter. -/
theorem claim_C8_counterexample :
    queryParams (ProductSearch.search_doc "x" plainDoc).query_url ≠
        [("q", "x")] ∧
      queryParams (ProductSearch.search_doc "x" plainDoc).query_url =
        [("marketplace", "FLIPKART"), ("q", "x")] := by
  refine ⟨by decide, by decide⟩

/-- C8 (amended): for every query, `search_doc` (and `search`, which
duplicates its logic) embeds the form-url-encoded query as the single added
parameter `q` on the fixed search endpoint, which already carries the fixed
`marketplace=FLIPKART` parameter; the returned record's `query` field
equals the input query and `query_url` is that constructed URL. -/
theorem claim_C8 (q : String) (doc : Node) :
    (ProductSearch.search_doc q doc).query = q ∧
      (ProductSearch.search_doc q doc).query_url = searchUrlOf q ∧
      (ProductSearch.search q doc).query_url = searchUrlOf q ∧
      queryParams (ProductSearch.search_doc q doc).query_url =
        [("marketplace", "FLIPKART"), ("q", formUrlEncode q)] := by
  refine ⟨rfl, rfl, rfl, ?_⟩
  exact queryParams_searchUrlOf q

/-- The head of a list is a member. -/
theorem head?_some_mem {α : Type} {l : List α} {a : α} (h : l.head? = some a) :
    a ∈ l := by
  cases l with
  | nil => cases h
  | cons x xs =>
    cases h
    exact List.mem_cons_self _ _

/-- C9: for every card that yields a search result, when the resolved name
element's first text node is the `Sponsored` marker the produced name is
the element's second text node; when it is anything else the produced name
is that first text node; and when the class-based resolution yields nothing
the name comes from the fallback chain (second link's `title`, then the
link's own text). -/
theorem claim_C9 (card : Node) (r : SearchResult) (l0 : Node)
    (h : searchCard card = some r)
    (hl : (selectDesc (isTag "a") card).head? = some l0) :
    (∀ cs ne, lastChildClasses l0 = some cs →
      (selectDesc (hasAllClasses cs) l0).head? = some ne →
      (∀ t rest2, texts ne = "Sponsored" :: t :: rest2 → r.product_name = t) ∧
      (∀ t rest2, texts ne = t :: rest2 → t ≠ "Sponsored" →
        r.product_name = t)) ∧
    (∀ cs, lastChildClasses l0 = some cs → classNameOf l0 cs = none →
      fallbackNameOf l0 (selectDesc (isTag "a") card).tail =
        some r.product_name) := by
  unfold searchCard at h
  simp only [hl] at h
  cases hhref : findAttr l0 "href" with
  | none => simp [hhref] at h
  | some href =>
  simp only [hhref] at h
  cases himg : (selectDesc (isTag "img") l0).head? with
  | none => simp [himg] at h
  | some img0 =>
  simp only [himg] at h
  cases hsrc : findAttr img0 "src" with
  | none => simp [hsrc] at h
  | some src =>
  simp only [hsrc] at h
  cases hcls : lastChildClasses l0 with
  | none => simp [hcls] at h
  | some cs0 =>
  simp only [hcls] at h
  by_cases hemp : cs0.isEmpty = true
  · simp [hemp] at h
  simp only [hemp, Bool.false_eq_true, if_false] at h
  cases hname : (classNameOf l0 cs0).orElse
      (fun _ => fallbackNameOf l0 (selectDesc (isTag "a") card).tail) with
  | none => simp [hname] at h
  | some nm =>
  simp only [hname] at h
  cases h
  constructor
  · intro cs ne hcs hne
    have hcseq : cs0 = cs := Option.some.inj hcs
    subst hcseq
    constructor
    · intro t rest2 ht
      have hcn : classNameOf l0 cs0 = some t := by
        unfold classNameOf
        simp only [hne, ht]
        rfl
      rw [hcn] at hname
      exact (Option.some.inj hname).symm
    · intro t rest2 ht hts
      have hcn : classNameOf l0 cs0 = some t := by
        unfold classNameOf
        simp only [hne, ht]
        rw [if_neg hts]
      rw [hcn] at hname
      exact (Option.some.inj hname).symm
  · intro cs hcs hcn
    have hcseq : cs0 = cs := Option.some.inj hcs
    subst hcseq
    rw [hcn] at hname
    exact hname

/-- C9 (witness): the sponsored card's produced name is the second text
node, not the marker. -/
theorem claim_C9_witness : sponsoredResult.product_name = "Cool Phone" :=
  ((claim_C9 sponsoredCard sponsoredResult sponsoredLink (by rfl) (by rfl)).1
    ["nm"] sponsoredNameElem (by rfl) (by rfl)).1 "Cool Phone" [] (by rfl)

/-- C10: a card whose first link has an `href` and no image-with-`src`
inside that link yields no search result — a thumbnail source is a third
hard requirement for inclusion — and the search as a whole still returns
its record, the card merely missing from the per-card extraction. -/
theorem claim_C10 (card : Node) (l0 : Node)
    (hl : (selectDesc (isTag "a") card).head? = some l0)
    (hhref : (findAttr l0 "href").isSome = true)
    (himg : ∀ img ∈ selectDesc (isTag "img") l0, findAttr img "src" = none) :
    searchCard card = none ∧
      ∀ (q : String) (doc : Node),
        (ProductSearch.search_doc q doc).results =
          (searchCards doc).filterMap searchCard := by
  refine ⟨?_, fun q doc => rfl⟩
  unfold searchCard
  simp only [hl]
  cases hh : findAttr l0 "href" with
  | none => rfl
  | some href =>
    cases himg0 : (selectDesc (isTag "img") l0).head? with
    | none => simp [himg0]
    | some img0 =>
      have hs : findAttr img0 "src" = none := himg img0 (head?_some_mem himg0)
      simp [himg0, hs]

/-- C10 (witness): the thumbnail-less card is dropped. -/
theorem claim_C10_witness : searchCard noThumbCard = none :=
  (claim_C10 noThumbCard noThumbLink (by rfl) (by rfl) (by decide)).1
